import Mathlib

/-!
Verification development for the offline-conversion formatting pipeline
(column mapping, row validation, date/value/currency normalization,
PII canonicalization and hashing, and the orchestrating data flow).

The JavaScript sources are shallowly embedded: plain functions become Lean
functions over an explicit model of spreadsheet cell values; operations that
can raise a `TypeError` in JavaScript (such as calling `.trim()` on a number)
are modelled in the `Except` monad; external library primitives (the ISO date
parsing of the date library and the SHA-256 digest of the crypto API) are
either modelled on the fragment of inputs exercised here or taken as
parameters constrained by their documented contracts.
-/

namespace OCT

/-- A raw spreadsheet cell value as delivered to the pipeline: a string, a
number (spreadsheet parsing can deliver numeric cells), or JavaScript
`undefined` for an absent field. Numbers are modelled as integers; the claims
checked here never depend on non-integral numeric cells. -/
inductive CellVal where
  | str (s : String)
  | num (n : Int)
  | undef
deriving DecidableEq, Repr

/-- The only runtime failure the embedded fragment can produce: a JavaScript
`TypeError` from invoking a string method on a non-string value. -/
inductive JSError where
  | typeError
deriving DecidableEq, Repr

/-- Decidable equality of `Except` results, for concrete evaluation. -/
instance instDecEqExcept [DecidableEq ε] [DecidableEq α] :
    DecidableEq (Except ε α) := fun a b =>
  match a, b with
  | .ok x, .ok y =>
    if h : x = y then .isTrue (by rw [h]) else .isFalse (by simp [h])
  | .error x, .error y =>
    if h : x = y then .isTrue (by rw [h]) else .isFalse (by simp [h])
  | .ok _, .error _ => .isFalse (by simp)
  | .error _, .ok _ => .isFalse (by simp)

/-- The whitespace characters recognized by the embedding (the ASCII subset
of JavaScript's `\s` class; the inputs treated here contain no exotic
whitespace). -/
def jsWhitespace (c : Char) : Bool :=
  c = ' ' || c = '\t' || c = '\n' || c = '\r'

/-- `String.prototype.trim` at the character-list level. -/
def trimChars (cs : List Char) : List Char :=
  ((cs.dropWhile jsWhitespace).reverse.dropWhile jsWhitespace).reverse

/-- JavaScript `s.trim()` for a string receiver. -/
def jsTrim (s : String) : String :=
  ⟨trimChars s.data⟩

/-- JavaScript `s.toLowerCase()` on the ASCII fragment. -/
def jsToLower (s : String) : String :=
  ⟨s.data.map Char.toLower⟩

/-- JavaScript `s.toUpperCase()` on the ASCII fragment. -/
def jsToUpper (s : String) : String :=
  ⟨s.data.map Char.toUpper⟩

/-- The character for a decimal digit value. -/
def digitChar (d : Nat) : Char :=
  Char.ofNat (48 + d)

/-- The numeric value of a decimal digit character. -/
def digitVal (c : Char) : Nat :=
  c.toNat - 48

/-- Decimal digit characters of `n`, most significant first
(`fuel`-driven so the recursion is structural). -/
def natDigitsAux : Nat → Nat → List Char
  | 0, _ => []
  | fuel + 1, n =>
    if n < 10 then [digitChar n]
    else natDigitsAux fuel (n / 10) ++ [digitChar (n % 10)]

/-- Decimal representation of a natural number, as characters. -/
def natDigits (n : Nat) : List Char :=
  natDigitsAux (n + 1) n

/-- `String(n).padStart(w, '0')` for a natural number `n`: the decimal
representation left-padded with zeros to at least `w` characters. -/
def padNat (w : Nat) (n : Nat) : String :=
  ⟨List.replicate (w - (natDigits n).length) '0' ++ natDigits n⟩

/-- JavaScript `String(n)` for an integer. -/
def intStr (n : Int) : String :=
  if n < 0 then ⟨'-' :: natDigits n.natAbs⟩ else ⟨natDigits n.natAbs⟩

/-- JavaScript truthiness of a cell value: empty string, the number 0 and
`undefined` are falsy. -/
def CellVal.truthy : CellVal → Bool
  | .str s => s ≠ ""
  | .num n => n ≠ 0
  | .undef => false

/-- JavaScript `v.trim()` on a cell value: succeeds on strings, raises a
`TypeError` on numbers and `undefined`. -/
def CellVal.trimE : CellVal → Except JSError String
  | .str s => .ok (jsTrim s)
  | _ => .error .typeError

/-- JavaScript `String(v)` / template-literal interpolation of a cell value
(`undefined` prints as the text `undefined`). -/
def CellVal.toStr : CellVal → String
  | .str s => s
  | .num n => intStr n
  | .undef => "undefined"

/-- `v || ''` as it appears in template literals and export shaping: the
printed value when truthy, the empty string otherwise. -/
def CellVal.orEmpty (v : CellVal) : String :=
  if v.truthy then v.toStr else ""

/-- Numeric value of a list of decimal digit characters. -/
def digitsVal (cs : List Char) : Nat :=
  cs.foldl (fun a c => 10 * a + digitVal c) 0

/-- An exact decimal number `num / 10 ^ scale`, the value form produced by
`parseFloat` on the decimal fragment treated here (the call sites only test
for `NaN` or compare with zero, so no floating-point rounding is
observable). -/
structure JSNum where
  num : Int
  scale : Nat
deriving DecidableEq, Repr

/-- Is the parsed number strictly positive (`numValue > 0`). -/
def JSNum.isPos (q : JSNum) : Bool :=
  0 < q.num

/-- Model of JavaScript `parseFloat` on the fragment used by the pipeline:
optional leading whitespace and sign, then a longest prefix of digits with an
optional fractional part; `none` models `NaN` (no digit consumed). Exponents
and `Infinity` are outside the fragment: the call sites only test the result
for `NaN` or compare it with 0, and the strings reaching them here contain
only digits, `.` and `-`. -/
def parseFloatJS (s : String) : Option JSNum :=
  let cs := s.data.dropWhile jsWhitespace
  let (sign, cs1) : Int × List Char :=
    match cs with
    | '-' :: r => (-1, r)
    | '+' :: r => (1, r)
    | _ => (1, cs)
  let intD := cs1.takeWhile Char.isDigit
  let rest := cs1.dropWhile Char.isDigit
  let fracD :=
    match rest with
    | '.' :: r => r.takeWhile Char.isDigit
    | _ => []
  if intD.isEmpty && fracD.isEmpty then none
  else
    some ⟨sign * (digitsVal intD * 10 ^ fracD.length + digitsVal fracD),
      fracD.length⟩

/-! ## Calendar dates

The pipeline manipulates dates through the external date library
(`parseISO`, `format`, `isValid`, `differenceInDays`, `isToday`) and through
the JavaScript `Date` constructor. Only the calendar date (year, month, day)
is observable in the embedded fragment: the formatted output takes its time
of day from the original text, and the conversion-window check compares
calendar days. -/

/-- A parsed calendar date. -/
structure PDate where
  year : Nat
  month : Nat
  day : Nat
deriving DecidableEq, Repr

/-- Day number of a civil date (days since 1970-01-01, Gregorian calendar,
standard era-based computation). -/
def daysFromCivil (y : Int) (m : Int) (d : Int) : Int :=
  let y1 := if m ≤ 2 then y - 1 else y
  let era := Int.fdiv y1 400
  let yoe := y1 - era * 400
  let mp := Int.fmod (m + 9) 12
  let doy := (153 * mp + 2) / 5 + d - 1
  let doe := yoe * 365 + yoe / 4 - yoe / 100 + doy
  era * 146097 + doe - 719468

/-- Civil date of a day number (inverse of `daysFromCivil`). -/
def civilFromDays (z0 : Int) : Int × Nat × Nat :=
  let z := z0 + 719468
  let era := Int.fdiv z 146097
  let doe := z - era * 146097
  let yoe := (doe - doe / 1460 + doe / 36524 - doe / 146096) / 365
  let y := yoe + era * 400
  let doy := doe - (365 * yoe + yoe / 4 - yoe / 100)
  let mp := (5 * doy + 2) / 153
  let d := doy - (153 * mp + 2) / 5 + 1
  let m := if mp < 10 then mp + 3 else mp - 9
  (if m ≤ 2 then y + 1 else y, m.toNat, d.toNat)

/-- Day number of a parsed date. -/
def PDate.dayNumber (p : PDate) : Int :=
  daysFromCivil p.year p.month p.day

/-- `differenceInDays(a, b)` of the date library, at calendar-day
granularity (the fragment never compares at sub-day precision). -/
def differenceInDays (a b : PDate) : Int :=
  a.dayNumber - b.dayNumber

/-- `new Date(year, month - 1, day)` of JavaScript: out-of-range months and
days are normalized by calendar arithmetic, and a year argument between 0
and 99 is interpreted as 1900 + year. -/
def jsMakeDate (y m d : Nat) : PDate :=
  let y1 : Int := if y ≤ 99 then (y : Int) + 1900 else y
  let mt : Int := 12 * y1 + ((m : Int) - 1)
  let yy := Int.fdiv mt 12
  let mm := Int.fmod mt 12
  let dn := daysFromCivil yy (mm + 1) 1 + ((d : Int) - 1)
  let c := civilFromDays dn
  ⟨c.1.toNat, c.2.1, c.2.2⟩

/-- Is `y` a Gregorian leap year. -/
def isLeapYear (y : Nat) : Bool :=
  y % 4 = 0 && (y % 100 ≠ 0 || y % 400 = 0)

/-- Number of days in a month. -/
def daysInMonth (y m : Nat) : Nat :=
  if m = 2 then (if isLeapYear y then 29 else 28)
  else if m = 4 || m = 6 || m = 9 || m = 11 then 30
  else 31

/-- Take exactly `k` decimal digit characters from the front of a list,
returning their value and the remainder. -/
def digitsTake : Nat → List Char → Option (Nat × List Char)
  | 0, cs => some (0, cs)
  | k + 1, c :: cs =>
    if c.isDigit then
      match digitsTake k cs with
      | some (v, rest) => some (digitVal c * 10 ^ k + v, rest)
      | none => none
    else none
  | _ + 1, [] => none

/-- Expect a single character at the front of a list. -/
def charTake (c : Char) : List Char → Option (List Char)
  | c' :: cs => if c' = c then some cs else none
  | [] => none

/-- Model of the date library's `parseISO`, restricted to the extended
calendar forms exercised by this code base: `yyyy-mm-dd`, optionally followed
by `T` or a space and `HH:mm` or `HH:mm:ss`. Field ranges are validated as
the library does (months 1–12, days within the month, hours ≤ 23, minutes
and seconds ≤ 59). Strings carrying explicit UTC offsets, week dates, or
other ISO shapes are outside the fragment the claims exercise and yield
`none`. The time of day is validated and then discarded (see `PDate`). -/
def parseISOModel (s : String) : Option PDate :=
  match digitsTake 4 s.data with
  | none => none
  | some (y, r1) =>
    match charTake '-' r1 with
    | none => none
    | some r2 =>
      match digitsTake 2 r2 with
      | none => none
      | some (m, r3) =>
        match charTake '-' r3 with
        | none => none
        | some r4 =>
          match digitsTake 2 r4 with
          | none => none
          | some (d, r5) =>
            let dateOk := 1 ≤ m && m ≤ 12 && 1 ≤ d && d ≤ daysInMonth y m
            let timeOk : List Char → Bool := fun tcs =>
              match digitsTake 2 tcs with
              | none => false
              | some (hh, t1) =>
                match charTake ':' t1 with
                | none => false
                | some t2 =>
                  match digitsTake 2 t2 with
                  | none => false
                  | some (mi, t3) =>
                    (hh ≤ 23 && mi ≤ 59) &&
                    match t3 with
                    | [] => true
                    | ':' :: t4 =>
                      match digitsTake 2 t4 with
                      | some (ss, []) => ss ≤ 59
                      | _ => false
                    | _ => false
            match r5 with
            | [] => if dateOk then some ⟨y, m, d⟩ else none
            | c :: rest =>
              if (c = 'T' || c = ' ') && dateOk && timeOk rest then
                some ⟨y, m, d⟩
              else none

/-- The external date primitives `tryParseDate` depends on: the library's
`parseISO` and the engine's permissive `new Date(string)` fallback. General
theorems quantify over this structure; concrete evaluations use
`jsDateLib`. -/
structure DateLib where
  parseISO : String → Option PDate
  nativeParse : String → Option PDate

/-- The concrete instance used for concrete runs: `parseISO` is
`parseISOModel`, and the last-resort `new Date(string)` fallback is modelled
as failing (no input exercised in this development reaches it). -/
def jsDateLib : DateLib :=
  ⟨parseISOModel, fun _ => none⟩

/-- Pattern `^(\d{4})-(\d{2})-(\d{2})\s+(\d{2}):(\d{2}):(\d{2})` (target
format with time; unanchored at the end). Returns the (year, month, day)
groups. -/
def patYmdTime (cs : List Char) : Option (Nat × Nat × Nat) :=
  match digitsTake 4 cs with
  | none => none
  | some (y, r1) =>
    match charTake '-' r1 with
    | none => none
    | some r2 =>
      match digitsTake 2 r2 with
      | none => none
      | some (m, r3) =>
        match charTake '-' r3 with
        | none => none
        | some r4 =>
          match digitsTake 2 r4 with
          | none => none
          | some (d, r5) =>
            let ws := r5.takeWhile jsWhitespace
            let r6 := r5.dropWhile jsWhitespace
            if ws.isEmpty then none
            else
              match digitsTake 2 r6 with
              | none => none
              | some (_, t1) =>
                match charTake ':' t1 with
                | none => none
                | some t2 =>
                  match digitsTake 2 t2 with
                  | none => none
                  | some (_, t3) =>
                    match charTake ':' t3 with
                    | none => none
                    | some t4 =>
                      match digitsTake 2 t4 with
                      | none => none
                      | some _ => some (y, m, d)

/-- A fully anchored three-component date pattern: `a` digits, `sep`, `b`
digits, `sep`, `c` digits, end of string. -/
def patSep (a : Nat) (sep : Char) (b : Nat) (c : Nat) (cs : List Char) :
    Option (Nat × Nat × Nat) :=
  match digitsTake a cs with
  | none => none
  | some (x, r1) =>
    match charTake sep r1 with
    | none => none
    | some r2 =>
      match digitsTake b r2 with
      | none => none
      | some (y, r3) =>
        match charTake sep r3 with
        | none => none
        | some r4 =>
          match digitsTake c r4 with
          | some (z, []) => some (x, y, z)
          | _ => none

/-- `tryParseDate(dateStr)` of the validator: `parseISO` first, then the
fixed ordered pattern list — `yyyy-mm-dd HH:mm:ss` (prefix), `yyyy-mm-dd`,
`yyyy/mm/dd`, `mm/dd/yyyy`, `dd-mm-yyyy`, `dd.mm.yyyy` — each feeding its
groups to `new Date(year, month-1, day)`, then the engine's native parse as
a last resort. The string call sites always hand it a string; the empty
string is falsy and yields `none`. -/
def tryParseDate (lib : DateLib) (s : String) : Option PDate :=
  if s = "" then none
  else
    let trimmed := jsTrim s
    match lib.parseISO trimmed with
    | some p => some p
    | none =>
      let cs := trimmed.data
      match patYmdTime cs with
      | some (y, m, d) => some (jsMakeDate y m d)
      | none =>
        match patSep 4 '-' 2 2 cs with
        | some (y, m, d) => some (jsMakeDate y m d)
        | none =>
          match patSep 4 '/' 2 2 cs with
          | some (y, m, d) => some (jsMakeDate y m d)
          | none =>
            match patSep 2 '/' 2 4 cs with
            | some (m, d, y) => some (jsMakeDate y m d)
            | none =>
              match patSep 2 '-' 2 4 cs with
              | some (d, m, y) => some (jsMakeDate y m d)
              | none =>
                match patSep 2 '.' 2 4 cs with
                | some (d, m, y) => some (jsMakeDate y m d)
                | none => lib.nativeParse trimmed

/-! ## Pipeline data model -/

/-- The upload modes (`MODES.STANDARD`, `MODES.EC4L`, `MODES.FACEBOOK`):
the spec's Standard, EnhancedForLeads and SocialPlatform modes. -/
inductive Mode where
  | standard
  | ec4l
  | facebook
deriving DecidableEq, Repr

/-- Issue severities. -/
inductive IssueType where
  | error
  | warning
  | info
deriving DecidableEq, Repr

/-- The validation message texts, one constructor per distinct string
(`VALIDATION_MESSAGES` plus the two inline literals of the validator):
`missingGclid` = "Missing Google Click ID (GCLID) - required for Standard
mode", `missingEmailOrPhone` = "Missing both Email and Phone - at least one
is required for EC4L mode", `missingConversionTime` = "Missing conversion
time - required field", `invalidDate` = "Invalid date format - could not
parse", `gclidTooOld` = "GCLID may be older than 90 days - conversion might
not be attributed", `ec4lTooOld` = "Conversion may be older than 63 days -
may not be matched", `invalidValue` = "Invalid conversion value - must be
numeric", `missingValue` = "Missing conversion value", `missingCurrency` =
"Missing currency - default will be applied", `possibleDuplicate` =
"Possible duplicate entry detected". -/
inductive Msg where
  | missingGclid
  | missingEmailOrPhone
  | missingConversionTime
  | invalidDate
  | gclidTooOld
  | ec4lTooOld
  | invalidValue
  | missingValue
  | missingCurrency
  | possibleDuplicate
deriving DecidableEq, Repr

/-- The logical field names of a mapped row. -/
inductive Field where
  | gclid
  | email
  | phone
  | firstName
  | lastName
  | country
  | zip
  | conversionTime
  | conversionValue
  | currency
deriving DecidableEq, Repr

/-- A validation issue (`{type, message, rowIndex, field}`). -/
structure Issue where
  type : IssueType
  message : Msg
  rowIndex : Nat
  field : Field
deriving DecidableEq, Repr

/-- The change descriptions recorded by the optimizer
(`VALIDATION_MESSAGES.info`), one constructor per distinct message:
`dateReformatted` = "Date reformatted to Google Ads format" (the spec's
DateReformatted), `timezoneApplied` = "Default timezone applied"
(TimezoneApplied), `timeAdded` = "Default time (12:00:00) added"
(TimeDefaulted), `emailHashed`, `phoneHashed`, `nameHashed` (hashing
records), `currencyFixed` = "Currency code uppercased" (CurrencyUppercased),
`valueFixed` = "Value format corrected" (the spec's ValueCleaned). -/
inductive ChangeTag where
  | dateReformatted
  | timezoneApplied
  | timeAdded
  | emailHashed
  | phoneHashed
  | nameHashed
  | currencyFixed
  | valueFixed
deriving DecidableEq, Repr

/-- A mapped row: the logical fields (absent fields are `undefined`) plus
the 1-based `_rowIndex` assigned by `applyMappings` (`row._rowIndex || 0`
evaluates to 0 on rows never mapped, hence the 0 default). -/
structure Row where
  rowIndex : Nat := 0
  gclid : CellVal := .undef
  email : CellVal := .undef
  phone : CellVal := .undef
  firstName : CellVal := .undef
  lastName : CellVal := .undef
  country : CellVal := .undef
  zip : CellVal := .undef
  conversionTime : CellVal := .undef
  conversionValue : CellVal := .undef
  currency : CellVal := .undef
deriving DecidableEq, Repr

/-- The user settings consumed by the pipeline (`dataProcessingOptions` is
not consumed by any embedded function and is omitted). -/
structure Settings where
  conversionName : String := ""
  eventName : String := ""
  timezone : String := "+00:00"
  defaultCurrency : String := ""
deriving DecidableEq, Repr

/-- Read a logical field of a row. -/
def Row.get (r : Row) : Field → CellVal
  | .gclid => r.gclid
  | .email => r.email
  | .phone => r.phone
  | .firstName => r.firstName
  | .lastName => r.lastName
  | .country => r.country
  | .zip => r.zip
  | .conversionTime => r.conversionTime
  | .conversionValue => r.conversionValue
  | .currency => r.currency

/-- Update a logical field of a row. -/
def Row.set (r : Row) (f : Field) (v : CellVal) : Row :=
  match f with
  | .gclid => { r with gclid := v }
  | .email => { r with email := v }
  | .phone => { r with phone := v }
  | .firstName => { r with firstName := v }
  | .lastName => { r with lastName := v }
  | .country => { r with country := v }
  | .zip => { r with zip := v }
  | .conversionTime => { r with conversionTime := v }
  | .conversionValue => { r with conversionValue := v }
  | .currency => { r with currency := v }

/-- Helper for `dedupFirst`: drop the elements already seen. -/
def dedupFirstAux [DecidableEq α] : List α → List α → List α
  | _, [] => []
  | seen, a :: rest =>
    if a ∈ seen then dedupFirstAux seen rest
    else a :: dedupFirstAux (a :: seen) rest

/-- `[...new Set(list)]`: keep the first occurrence of each element,
preserving order. -/
def dedupFirst [DecidableEq α] (l : List α) : List α :=
  dedupFirstAux [] l

/-! ## Column mapper (`applyMappings`) -/

/-- A source row as delivered by file parsing: an association list from
source header to cell value (headers are unique; lookup takes the first
match). -/
def RawRow := List (String × CellVal)

/-- A column mapping: `Object.entries(mappings)` in insertion order, each
entry a logical field paired with its chosen source header. -/
def Mappings := List (Field × String)

/-- First value stored under header `k`. -/
def rawLookup (row : RawRow) (k : String) : Option CellVal :=
  (List.find? (fun p => p.1 = k) row).map (·.2)

/-- `applyMappings(data, mappings, mode)`: each source row becomes a row
whose `_rowIndex` is its position + 1; each mapping entry with a truthy
source column copies the cell when the source row defines it
(`row[sourceColumn] !== undefined`). -/
def applyMappings (data : List RawRow) (mappings : Mappings) : List Row :=
  (List.enum data).map fun p =>
    mappings.foldl
      (fun acc fm =>
        if fm.2 ≠ "" then
          match rawLookup p.2 fm.2 with
          | some v => if v = .undef then acc else acc.set fm.1 v
          | none => acc
        else acc)
      { rowIndex := p.1 + 1 }

/-! ## Row validator -/

namespace Validator

/-- The Standard-mode identity requirement:
`if (!row.gclid || row.gclid.trim() === '')`. -/
def requireGclid (row : Row) : Except JSError (List Issue) := do
  if !row.gclid.truthy then
    return [⟨.error, .missingGclid, row.rowIndex, .gclid⟩]
  else
    let t ← row.gclid.trimE
    if t = "" then
      return [⟨.error, .missingGclid, row.rowIndex, .gclid⟩]
    else
      return []

/-- The EC4L identity requirement: at least one of email/phone non-blank
(`hasEmail = row.email && row.email.trim() !== ''`, likewise phone). -/
def requireEmailOrPhone (row : Row) : Except JSError (List Issue) := do
  let hasEmail ←
    if row.email.truthy then do
      let t ← row.email.trimE
      pure (t != "")
    else pure false
  let hasPhone ←
    if row.phone.truthy then do
      let t ← row.phone.trimE
      pure (t != "")
    else pure false
  if !hasEmail && !hasPhone then
    return [⟨.error, .missingEmailOrPhone, row.rowIndex, .email⟩]
  else
    return []

/-- `validateDate(dateStr, rowIndex, mode)`: parse failure is an Error;
otherwise compare the day difference from `now` with the mode's conversion
window (`CONVERSION_WINDOWS`: 90 for standard, 63 otherwise) and emit the
staleness Warning when exceeded. -/
def validateDate (lib : DateLib) (now : PDate) (s : String) (rowIndex : Nat)
    (mode : Mode) : List Issue :=
  match tryParseDate lib s with
  | none => [⟨.error, .invalidDate, rowIndex, .conversionTime⟩]
  | some parsed =>
    let daysDiff := differenceInDays now parsed
    let maxDays : Int := if mode = .standard then 90 else 63
    if daysDiff > maxDays then
      [⟨.warning, if mode = .standard then .gclidTooOld else .ec4lTooOld,
        rowIndex, .conversionTime⟩]
    else []

/-- The conversion-time requirement of `validateRow`: blank is an Error,
otherwise defer to `validateDate`. A non-zero numeric cell is truthy, so
the blank test calls `.trim()` on it and raises. -/
def checkTime (lib : DateLib) (now : PDate) (row : Row) (mode : Mode) :
    Except JSError (List Issue) :=
  match row.conversionTime with
  | .str s =>
    if jsTrim s = "" then
      .ok [⟨.error, .missingConversionTime, row.rowIndex, .conversionTime⟩]
    else
      .ok (validateDate lib now s row.rowIndex mode)
  | .num n =>
    if n = 0 then
      .ok [⟨.error, .missingConversionTime, row.rowIndex, .conversionTime⟩]
    else .error .typeError
  | .undef =>
    .ok [⟨.error, .missingConversionTime, row.rowIndex, .conversionTime⟩]

/-- `validateValue(value, rowIndex)`: strip currency symbols, commas and
whitespace, replace a (first) comma with a dot, and require
`parseFloat` to succeed. -/
def validateValue (s : String) (rowIndex : Nat) : List Issue :=
  let cleaned : String :=
    ⟨(s.data.filter fun c =>
        !(c = '$' || c = '€' || c = '£' || c = '¥' || c = '₹' || c = ',' ||
          jsWhitespace c))⟩
  match parseFloatJS cleaned with
  | none => [⟨.error, .invalidValue, rowIndex, .conversionValue⟩]
  | some _ => []

/-- The conversion-value rules of `validateRow`: a truthy non-blank string
goes through `validateValue`; an absent or blank value is a Warning. A
numeric cell raises: when truthy, from the `.trim()` of the presence test;
when it is the number 0 (falsy), from the `.trim()` in the
`row.conversionValue === undefined || row.conversionValue.trim() === ''`
else-branch. -/
def checkValue (row : Row) : Except JSError (List Issue) :=
  match row.conversionValue with
  | .str s =>
    if jsTrim s = "" then
      .ok [⟨.warning, .missingValue, row.rowIndex, .conversionValue⟩]
    else
      .ok (validateValue s row.rowIndex)
  | .num _ => .error .typeError
  | .undef =>
    .ok [⟨.warning, .missingValue, row.rowIndex, .conversionValue⟩]

/-- The currency rule of `validateRow`: Warning when a value is present,
no currency is mapped (or it is blank) and no default currency is
configured. -/
def checkCurrency (row : Row) (settings : Settings) :
    Except JSError (List Issue) :=
  match row.conversionValue with
  | .str s =>
    if jsTrim s = "" then .ok []
    else do
      let currencyBlank ←
        if !row.currency.truthy then pure true
        else do
          let t ← row.currency.trimE
          pure (t == "")
      if currencyBlank && settings.defaultCurrency = "" then
        .ok [⟨.warning, .missingCurrency, row.rowIndex, .currency⟩]
      else .ok []
  | .num n => if n = 0 then .ok [] else .error .typeError
  | .undef => .ok []

/-- `validateRow(row, mode, settings)`: the mode-specific identity
requirement, then the conversion-time, conversion-value and currency rules,
accumulating issues in source order. -/
def validateRow (lib : DateLib) (now : PDate) (row : Row) (mode : Mode)
    (settings : Settings) : Except JSError (List Issue) := do
  let identityIssues ←
    match mode with
    | .standard => requireGclid row
    | .ec4l => requireEmailOrPhone row
    | .facebook => pure []
  let timeIssues ← checkTime lib now row mode
  let valueIssues ← checkValue row
  let currencyIssues ← checkCurrency row settings
  return identityIssues ++ timeIssues ++ valueIssues ++ currencyIssues

/-- The composite duplicate key of `validateAll`: template-literal
interpolation of `gclid`-`conversionTime` in Standard mode and of
`(email || '')`-`(phone || '')`-`conversionTime` otherwise. -/
def dupKey (mode : Mode) (row : Row) : String :=
  match mode with
  | .standard => row.gclid.toStr ++ "-" ++ row.conversionTime.toStr
  | _ =>
    row.email.orEmpty ++ "-" ++ row.phone.orEmpty ++ "-" ++
      row.conversionTime.toStr

/-- The duplicate warning pushed for the row at (0-based) position `index`
when its key was already seen and differs from `'-'`. -/
def dupWarn (mode : Mode) (index : Nat) : Issue :=
  ⟨.warning, .possibleDuplicate, index + 1,
    if mode = .standard then .gclid else .email⟩

/-- The `forEach` body of `validateAll`: per-row issues, then the duplicate
check against the accumulated key set (the key is added after the check, so
a first occurrence is never flagged). -/
def validateAllGo (lib : DateLib) (now : PDate) (mode : Mode)
    (settings : Settings) :
    List Row → Nat → List String → Except JSError (List Issue)
  | [], _, _ => .ok []
  | row :: rest, index, seen => do
    let rowIssues ← validateRow lib now row mode settings
    let key := dupKey mode row
    let dupIssues :=
      if key ∈ seen ∧ key ≠ "-" then [dupWarn mode index] else []
    let restIssues ← validateAllGo lib now mode settings rest (index + 1)
      (key :: seen)
    return rowIssues ++ dupIssues ++ restIssues

/-- The aggregate counts of `validateAll`. -/
structure VSummary where
  errors : Nat
  warnings : Nat
  info : Nat
  total : Nat
deriving DecidableEq, Repr

/-- The result of `validateAll`. -/
structure VResult where
  issues : List Issue
  summary : VSummary
  canExport : Bool
deriving DecidableEq, Repr

/-- `validateAll(data, mode, settings)`: all per-row issues plus duplicate
warnings, severity counts, and `canExport = (errors == 0)`. -/
def validateAll (lib : DateLib) (now : PDate) (data : List Row) (mode : Mode)
    (settings : Settings) : Except JSError VResult := do
  let issues ← validateAllGo lib now mode settings data 0 []
  let errors := (issues.filter fun i => i.type = .error).length
  let warnings := (issues.filter fun i => i.type = .warning).length
  let infos := (issues.filter fun i => i.type = .info).length
  return ⟨issues, ⟨errors, warnings, infos, data.length⟩, errors = 0⟩

end Validator

/-! ## Optimizer: shared text helpers -/

/-- The anchored target-format test
`^\d{4}-\d{2}-\d{2}<sep>\d{2}:\d{2}:\d{2}[+-]\d{2}:\d{2}$`, with the
date/time separator (space or `T`) as a parameter. -/
def isTargetForm (sep : Char) : List Char → Bool
  | [y1, y2, y3, y4, h1, mo1, mo2, h2, d1, d2, sp,
     hh1, hh2, c1, mi1, mi2, c2, s1, s2, pm, tz1, tz2, c3, tz3, tz4] =>
    y1.isDigit && y2.isDigit && y3.isDigit && y4.isDigit && h1 = '-' &&
    mo1.isDigit && mo2.isDigit && h2 = '-' && d1.isDigit && d2.isDigit &&
    sp = sep && hh1.isDigit && hh2.isDigit && c1 = ':' && mi1.isDigit &&
    mi2.isDigit && c2 = ':' && s1.isDigit && s2.isDigit &&
    (pm = '+' || pm = '-') && tz1.isDigit && tz2.isDigit && c3 = ':' &&
    tz3.isDigit && tz4.isDigit
  | _ => false

/-- Try to read `\d{2}:\d{2}(?::(\d{2}))?` at the head of the list
(hours, minutes, optional seconds). -/
def timeAt : List Char → Option (Nat × Nat × Option Nat)
  | c1 :: c2 :: c3 :: c4 :: c5 :: rest =>
    if c1.isDigit && c2.isDigit && c3 = ':' && c4.isDigit && c5.isDigit then
      let ss :=
        match rest with
        | ':' :: d1 :: d2 :: _ =>
          if d1.isDigit && d2.isDigit then
            some (10 * digitVal d1 + digitVal d2)
          else none
        | _ => none
      some (10 * digitVal c1 + digitVal c2,
            10 * digitVal c4 + digitVal c5, ss)
    else none
  | _ => none

/-- Leftmost match of `(\d{2}):(\d{2})(?::(\d{2}))?` in the list: the
combined model of the `/\d{2}:\d{2}/` presence test and the subsequent
group-extracting match (both regexes match at the same leftmost
position). -/
def findTime : List Char → Option (Nat × Nat × Option Nat)
  | [] => none
  | c :: rest =>
    match timeAt (c :: rest) with
    | some r => some r
    | none => findTime rest

/-- Is a six-character list of the shape `[+-]\d{2}:\d{2}`. -/
def isTzChars : List Char → Bool
  | [pm, a, b, c, d, e] =>
    (pm = '+' || pm = '-') && a.isDigit && b.isDigit && c = ':' &&
    d.isDigit && e.isDigit
  | _ => false

/-- The suffix match `([+-]\d{2}:\d{2})$`: the last six characters when they
form an offset. -/
def tzSuffix (cs : List Char) : Option (List Char) :=
  let t := cs.drop (cs.length - 6)
  if cs.length ≥ 6 && isTzChars t then some t else none

/-- The suffix test `/Z$/`. -/
def endsWithZ (cs : List Char) : Bool :=
  cs.getLast? = some 'Z'

/-- `format(parsed, 'yyyy-MM-dd')` of the date library: zero-padded
year (to at least four digits), month and day. -/
def formatYmd (p : PDate) : String :=
  padNat 4 p.year ++ "-" ++ padNat 2 p.month ++ "-" ++ padNat 2 p.day

/-- Result of a single-field optimization: the rewritten text plus its
change records. -/
structure FieldRes where
  value : String
  changes : List ChangeTag
deriving DecidableEq, Repr

namespace Optimizer

/-- `optimizeDate(dateStr, defaultTimezone)` of the optimizer module used
by the Standard end-to-end scenario (space separator, noon default time)
for a string receiver. Early-returns when already in the exact target
grammar; pass-through on parse failure; otherwise renders
`yyyy-MM-dd HH:mm:ss±HH:mm`, taking the time of day and offset from the
source text when present and recording `timeAdded` / `timezoneApplied` /
`dateReformatted` changes. -/
def optimizeDateS (lib : DateLib) (dateStr : String)
    (defaultTimezone : String) : FieldRes :=
  if jsTrim dateStr = "" then ⟨"", []⟩
  else
    let trimmed := jsTrim dateStr
    if isTargetForm ' ' trimmed.data then ⟨trimmed, []⟩
    else
      match tryParseDate lib trimmed with
      | none => ⟨dateStr, []⟩
      | some parsed =>
        let timeM := findTime trimmed.data
        let hms : Nat × Nat × Nat :=
          match timeM with
          | some (hh, mi, ss) => (hh, mi, ss.getD 0)
          | none => (12, 0, 0)
        let changes1 : List ChangeTag :=
          match timeM with
          | some _ => []
          | none => [.timeAdded]
        let hasTz := (tzSuffix trimmed.data).isSome || endsWithZ trimmed.data
        let tz : String :=
          if hasTz then
            match tzSuffix trimmed.data with
            | some t => ⟨t⟩
            | none =>
              if endsWithZ trimmed.data then "+00:00" else defaultTimezone
          else defaultTimezone
        let changes2 : List ChangeTag :=
          if hasTz then [] else [.timezoneApplied]
        let timePart :=
          padNat 2 hms.1 ++ ":" ++ padNat 2 hms.2.1 ++ ":" ++ padNat 2 hms.2.2
        let formatted := formatYmd parsed ++ " " ++ timePart ++ tz
        let changes3 : List ChangeTag :=
          if formatted ≠ trimmed then [.dateReformatted] else []
        ⟨formatted, changes1 ++ changes2 ++ changes3⟩

/-- `optimizeDate` on a raw cell: falsy cells (empty string, the number 0,
`undefined`) early-return empty; a truthy number raises from `.trim()`. -/
def optimizeDate (lib : DateLib) (v : CellVal) (defaultTimezone : String) :
    Except JSError FieldRes :=
  match v with
  | .str s => .ok (optimizeDateS lib s defaultTimezone)
  | .num n => if n = 0 then .ok ⟨"", []⟩ else .error .typeError
  | .undef => .ok ⟨"", []⟩

/-- The currency symbols stripped by `optimizeValue`. -/
def isCurrencySymbol (c : Char) : Bool :=
  c = '$' || c = '€' || c = '£' || c = '¥' || c = '₹'

/-- The lookahead `(?=\d{3})`: at least three digits follow. -/
def threeDigitsAhead : List Char → Bool
  | a :: b :: c :: _ => a.isDigit && b.isDigit && c.isDigit
  | _ => false

/-- The global replace `/(\d)[,\s](?=\d{3})/g → '$1'`: scanning left to
right, a digit followed by a comma or whitespace and then by at least three
digits drops the separator (the lookahead digits are not consumed, so runs
like `1,234,567` collapse fully). -/
def remGroupSep : List Char → List Char
  | c1 :: c2 :: rest =>
    if c1.isDigit && (c2 = ',' || jsWhitespace c2) && threeDigitsAhead rest
    then c1 :: remGroupSep rest
    else c1 :: remGroupSep (c2 :: rest)
  | l => l

/-- The anchored test `^\d+,\d{1,2}$`. -/
def isCommaDecimal (cs : List Char) : Bool :=
  let ds := cs.takeWhile Char.isDigit
  let rest := cs.dropWhile Char.isDigit
  !ds.isEmpty &&
    match rest with
    | ',' :: t =>
      (t.length = 1 || t.length = 2) && t.all Char.isDigit
    | _ => false

/-- `replace(',', '.')` (first occurrence). -/
def replaceFirstComma : List Char → List Char
  | [] => []
  | ',' :: r => '.' :: r
  | c :: r => c :: replaceFirstComma r

/-- The value-cleaning stages shared by both optimizer generations, applied
to the trimmed text: strip currency symbols, drop grouping separators,
convert a single decimal comma, strip remaining whitespace. -/
def cleanValueStages (original : String) : String :=
  let o1 := original.data.filter (fun c => !isCurrencySymbol c)
  let o2 := remGroupSep o1
  let o3 := if isCommaDecimal o2 then replaceFirstComma o2 else o2
  ⟨o3.filter (fun c => !jsWhitespace c)⟩

/-- `optimizeValue(value)` of the Standard-scenario optimizer module for a
string receiver: blank early-returns empty, otherwise the cleaning stages,
recording `valueFixed` when the result differs from the trimmed input. -/
def optimizeValueS (s : String) : FieldRes :=
  if jsTrim s = "" then ⟨"", []⟩
  else
    let original := jsTrim s
    let optimized := cleanValueStages original
    ⟨optimized, if optimized ≠ original then [.valueFixed] else []⟩

/-- `optimizeValue` of the Standard-scenario optimizer module on a raw
cell (`if (!value || value.trim() === '')`): falsy cells early-return
empty; a truthy number raises from `.trim()`. -/
def optimizeValue (v : CellVal) : Except JSError FieldRes :=
  match v with
  | .str s => .ok (optimizeValueS s)
  | .num n => if n = 0 then .ok ⟨"", []⟩ else .error .typeError
  | .undef => .ok ⟨"", []⟩

/-- `optimizeCurrency(currency, defaultCurrency)`: blank falls back to the
uppercased default (no change recorded), otherwise uppercase the trimmed
code and record `currencyFixed` when that changed it. -/
def optimizeCurrency (v : CellVal) (defaultCurrency : String) :
    Except JSError FieldRes :=
  let fallback : FieldRes :=
    if defaultCurrency ≠ "" then ⟨jsToUpper defaultCurrency, []⟩ else ⟨"", []⟩
  match v with
  | .str s =>
    if jsTrim s = "" then .ok fallback
    else
      let original := jsTrim s
      let optimized := jsToUpper original
      .ok ⟨optimized, if optimized ≠ original then [.currencyFixed] else []⟩
  | .num n => if n = 0 then .ok fallback else .error .typeError
  | .undef => .ok fallback

end Optimizer

/-! ## PII canonicalizer and hasher -/

namespace Hasher

/-- First index of `c` in the list (`indexOf`). -/
def indexOfChar (c : Char) (cs : List Char) : Option Nat :=
  cs.findIdx? (fun x => x = c)

/-- `substring(0, indexOf('+'))` when a `+` is present, the whole local
part otherwise: everything before the first `+`. -/
def dropFromPlus (cs : List Char) : List Char :=
  cs.takeWhile (fun c => c ≠ '+')

/-- `normalizeEmail(email)`: lowercase and trim; when the domain (the text
after the first `@`) is `gmail.com` or `googlemail.com`, strip dots from
the local part and drop everything from the first `+`; for other domains
drop from the first `+` only; a string without `@` is returned
lowercased/trimmed. -/
def normalizeEmail (email : String) : String :=
  if email = "" then ""
  else
    let normalized := jsTrim (jsToLower email)
    match indexOfChar '@' normalized.data with
    | none => normalized
    | some atIndex =>
      let localPart := normalized.data.take atIndex
      let domain : String := ⟨normalized.data.drop (atIndex + 1)⟩
      if domain = "gmail.com" || domain = "googlemail.com" then
        let cleanLocal := dropFromPlus (localPart.filter (fun c => c ≠ '.'))
        ⟨cleanLocal⟩ ++ "@" ++ domain
      else
        ⟨dropFromPlus localPart⟩ ++ "@" ++ domain

/-- `normalizePhone(phone, defaultCountryCode = '1')`: trim, note a leading
`+`, keep only digits; `+` with ≥ 10 digits renders as-is; exactly 10
digits get the default country code; 11 digits starting with the literal
digit 1 render as-is; otherwise the digits are rendered with a `+`, with
the default country code prefixed only when no `+` was present. -/
def normalizePhone (phone : String) (defaultCountryCode : String := "1") :
    String :=
  if phone = "" then ""
  else
    let trimmed := jsTrim phone
    let hasPlus := trimmed.data.head? = some '+'
    let ds := trimmed.data.filter Char.isDigit
    if hasPlus && ds.length ≥ 10 then "+" ++ ⟨ds⟩
    else if ds.length = 10 then "+" ++ defaultCountryCode ++ ⟨ds⟩
    else if ds.length = 11 && ds.head? = some '1' then "+" ++ ⟨ds⟩
    else if hasPlus then "+" ++ ⟨ds⟩
    else "+" ++ defaultCountryCode ++ ⟨ds⟩

/-- A `\w` character: ASCII letter, digit or underscore. -/
def isWordChar (c : Char) : Bool :=
  c.isAlphanum || c = '_'

/-- `replace(/\s+/g, ' ')` after each whitespace character has been turned
into a space: collapse space runs. -/
def squeezeSpaces : List Char → List Char
  | [] => []
  | ' ' :: ' ' :: r => squeezeSpaces (' ' :: r)
  | c :: r => c :: squeezeSpaces r

/-- `normalizeName(name)`: lowercase, trim, remove everything outside
`\w` and whitespace, collapse whitespace runs to a single space. -/
def normalizeName (name : String) : String :=
  if name = "" then ""
  else
    let base := jsTrim (jsToLower name)
    let kept := base.data.filter (fun c => isWordChar c || jsWhitespace c)
    ⟨squeezeSpaces (kept.map (fun c => if jsWhitespace c then ' ' else c))⟩

/-- A lowercase hexadecimal digit character. -/
def hexChar (d : Nat) : Char :=
  if d < 10 then digitChar d else Char.ofNat (87 + d)

/-- Hexadecimal digit characters of `n` (`fuel`-driven). -/
def natHexAux : Nat → Nat → List Char
  | 0, _ => []
  | fuel + 1, n =>
    if n < 16 then [hexChar n]
    else natHexAux fuel (n / 16) ++ [hexChar (n % 16)]

/-- `b.toString(16).padStart(2, '0')`: lowercase hexadecimal representation
of a byte, left-padded to at least two characters. -/
def byteHex (b : Nat) : List Char :=
  let h := natHexAux (b + 1) b
  List.replicate (2 - h.length) '0' ++ h

/-- `sha256Hash(text)`: the hex encoding of the digest bytes, with the
SHA-256 primitive of the crypto API abstracted as the `digest` parameter
(its contract: 32 bytes, each below 256). -/
def sha256Hash (digest : String → List Nat) (text : String) : String :=
  ⟨((digest text).map byteHex).flatten⟩

/-- A hexadecimal character, either case (`[a-f0-9]` under `/i`). -/
def isHexCI (c : Char) : Bool :=
  c.isDigit || ('a' ≤ c && c ≤ 'f') || ('A' ≤ c && c ≤ 'F')

/-- `isAlreadyHashed` on a string receiver:
`/^[a-f0-9]{64}$/i.test(value.trim())`. -/
def isAlreadyHashedS (s : String) : Bool :=
  let t := jsTrim s
  t.data.length = 64 && t.data.all isHexCI

/-- `isAlreadyHashed(value)`: falsy values answer `false`; a truthy number
raises from the `.trim()`. -/
def isAlreadyHashedE (v : CellVal) : Except JSError Bool :=
  match v with
  | .str s => .ok (if s = "" then false else isAlreadyHashedS s)
  | .num n => if n = 0 then .ok false else .error .typeError
  | .undef => .ok false

/-- The field kinds `hashField` dispatches on. -/
inductive HashKind where
  | email
  | phone
  | firstName
  | lastName
  | other
deriving DecidableEq, Repr

/-- `hashField(value, fieldType)` for a non-blank string receiver:
canonicalize per field kind (phone always with the default country code
`'1'` — the call passes no second argument), then digest unless the
canonical form is empty. -/
def hashFieldS (digest : String → List Nat) (s : String) (kind : HashKind) :
    String :=
  if jsTrim s = "" then ""
  else
    let normalized :=
      match kind with
      | .email => normalizeEmail s
      | .phone => normalizePhone s "1"
      | .firstName => normalizeName s
      | .lastName => normalizeName s
      | .other => jsTrim s
    if normalized = "" then "" else sha256Hash digest normalized

/-- `hashField` on a raw cell: falsy cells yield the empty string; a
truthy number raises from the blank test's `.trim()`. -/
def hashField (digest : String → List Nat) (v : CellVal) (kind : HashKind) :
    Except JSError String :=
  match v with
  | .str s => .ok (hashFieldS digest s kind)
  | .num n => if n = 0 then .ok "" else .error .typeError
  | .undef => .ok ""

end Hasher

namespace Optimizer

/-- The country/zip handling of `optimizeRow`: truthy values are trimmed
in place (raising on a truthy number), falsy values stay as they are. -/
def trimInPlace (v : CellVal) : Except JSError CellVal :=
  if v.truthy then do
    let t ← v.trimE
    pure (.str t)
  else pure v

/-- The conversion-value step of `optimizeRow`: only a truthy value is
rewritten (`if (row.conversionValue) { ... }`); a falsy cell stays as it
is with no changes. Returns the new cell and the recorded changes. -/
def optimizeValuePair (v : CellVal) : Except JSError (CellVal × List ChangeTag) :=
  if v.truthy then do
    let vr ← optimizeValue v
    pure (CellVal.str vr.value, vr.changes)
  else pure (v, [])

/-- The per-PII-field step of `optimizeRow`:
`if (row.field && !isAlreadyHashed(row.field)) { hash; record }` — the
already-hashed and falsy cases leave the value untouched and record
nothing. -/
def hashStep (digest : String → List Nat) (v : CellVal) (kind : Hasher.HashKind)
    (tag : List ChangeTag) : Except JSError (CellVal × List ChangeTag) :=
  if v.truthy then do
    let already ← Hasher.isAlreadyHashedE v
    if !already then do
      let h ← Hasher.hashField digest v kind
      pure (.str h, tag)
    else pure (v, [])
  else pure (v, [])

/-- The repeat-guard of the last-name step:
`!row.firstName || isAlreadyHashed(row.firstName)` — true when no first
name was just hashed (so the shared name tag may be recorded again). -/
def repeatGuardStep (firstName : CellVal) : Except JSError Bool :=
  if !firstName.truthy then pure true
  else Hasher.isAlreadyHashedE firstName

/-- The last-name step of `optimizeRow`: like `hashStep`, but the shared
name tag is recorded only when the repeat-guard allows it. -/
def lastNameStep (digest : String → List Nat) (firstName lastName : CellVal) :
    Except JSError (CellVal × List ChangeTag) :=
  if lastName.truthy then do
    let already ← Hasher.isAlreadyHashedE lastName
    if !already then do
      let h ← Hasher.hashField digest lastName .lastName
      let repeatGuard ← repeatGuardStep firstName
      pure (CellVal.str h,
        if repeatGuard then [ChangeTag.nameHashed] else [])
    else pure (lastName, [])
  else pure (lastName, [])

/-- `optimizeRow(row, mode, settings)` of the Standard-scenario optimizer
module: date, value (only when truthy) and currency rewrites, then in EC4L
mode the PII hashing (email, phone, first/last name — the name tag is not
repeated for the last name when the first name was just hashed) and
country/zip trims; the collected changes are deduplicated preserving first
occurrence. -/
def optimizeRow (digest : String → List Nat) (lib : DateLib) (row : Row)
    (mode : Mode) (settings : Settings) :
    Except JSError (Row × List ChangeTag) := do
  let dateResult ← optimizeDate lib row.conversionTime settings.timezone
  let vp ← optimizeValuePair row.conversionValue
  let currencyResult ← optimizeCurrency row.currency settings.defaultCurrency
  let baseChanges := dateResult.changes ++ vp.2 ++ currencyResult.changes
  let row1 := { row with
    conversionTime := .str dateResult.value
    conversionValue := vp.1
    currency := .str currencyResult.value }
  if mode = .ec4l then do
    let ep ← hashStep digest row.email .email [.emailHashed]
    let pp ← hashStep digest row.phone .phone [.phoneHashed]
    let fp ← hashStep digest row.firstName .firstName [.nameHashed]
    let lp ← lastNameStep digest row.firstName row.lastName
    let country1 ← trimInPlace row.country
    let zip1 ← trimInPlace row.zip
    let row2 := { row1 with
      email := ep.1
      phone := pp.1
      firstName := fp.1
      lastName := lp.1
      country := country1
      zip := zip1 }
    return (row2, dedupFirst (baseChanges ++ ep.2 ++ pp.2 ++ fp.2 ++ lp.2))
  else
    return (row1, dedupFirst baseChanges)

/-- `optimizeAll(data, mode, settings)`: rows optimized in order
(sequentially awaited), each row's deduplicated changes tagged with its
`_rowIndex`. -/
def optimizeAll (digest : String → List Nat) (lib : DateLib)
    (data : List Row) (mode : Mode) (settings : Settings) :
    Except JSError (List Row × List (ChangeTag × Nat)) := do
  match data with
  | [] => return ([], [])
  | row :: rest => do
    let (d, ch) ← optimizeRow digest lib row mode settings
    let (ds, chs) ← optimizeAll digest lib rest mode settings
    return (d :: ds, ch.map (fun t => (t, row.rowIndex)) ++ chs)

/-- The per-tag change counts of `optimizeAll` (`changeSummary`). -/
def changeSummary (changes : List (ChangeTag × Nat)) (t : ChangeTag) : Nat :=
  (changes.filter fun c => c.1 = t).length

/-- An export row: the terminal platform-column representation. The
Standard constructor fields are, in order, the `Google Click ID`,
`Conversion Name`, `Conversion Time`, `Conversion Value` and
`Conversion Currency` columns; the EC4L constructor prepends `Email`,
`Phone Number`, `First Name`, `Last Name`, `Country` and `Zip`. -/
inductive ExportRow where
  | std (gclid conversionName conversionTime conversionValue
      currency : String)
  | ec4l (email phone firstName lastName country zip conversionName
      conversionTime conversionValue currency : String)
deriving DecidableEq, Repr

/-- `transformToGoogleAdsFormat(data, mode, conversionName)`: shape each
optimized row into the mode's platform columns, substituting the empty
string for falsy cells. -/
def transformToGoogleAdsFormat (data : List Row) (mode : Mode)
    (conversionName : String) : List ExportRow :=
  data.map fun row =>
    match mode with
    | .standard =>
      .std row.gclid.orEmpty conversionName row.conversionTime.orEmpty
        row.conversionValue.orEmpty row.currency.orEmpty
    | _ =>
      .ec4l row.email.orEmpty row.phone.orEmpty row.firstName.orEmpty
        row.lastName.orEmpty row.country.orEmpty row.zip.orEmpty
        conversionName row.conversionTime.orEmpty
        row.conversionValue.orEmpty row.currency.orEmpty

end Optimizer

/-! ## The second optimizer generation

The repository also carries a newer optimizer module (`T` separator,
end-of-day default time capped at the current time for today's date, and an
`optimizeValue` that accepts numeric cells). The date-idempotence claim and
the totality claims cite both generations. -/

namespace OptimizerT

/-- `optimizeDate(dateStr, defaultTimezone)` of the newer optimizer module
for a string receiver: target grammar uses the `T` separator; a missing
time of day defaults to `23:59:59`, except that for today's date the
current time `nowTime = (hours, minutes, seconds)` is used instead. -/
def optimizeDateS (lib : DateLib) (now : PDate) (nowTime : Nat × Nat × Nat)
    (dateStr : String) (defaultTimezone : String) : FieldRes :=
  if jsTrim dateStr = "" then ⟨"", []⟩
  else
    let trimmed := jsTrim dateStr
    if isTargetForm 'T' trimmed.data then ⟨trimmed, []⟩
    else
      match tryParseDate lib trimmed with
      | none => ⟨dateStr, []⟩
      | some parsed =>
        let timeM := findTime trimmed.data
        let hms : Nat × Nat × Nat :=
          match timeM with
          | some (hh, mi, ss) => (hh, mi, ss.getD 0)
          | none => if parsed = now then nowTime else (23, 59, 59)
        let changes1 : List ChangeTag :=
          match timeM with
          | some _ => []
          | none => [.timeAdded]
        let hasTz := (tzSuffix trimmed.data).isSome || endsWithZ trimmed.data
        let tz : String :=
          if hasTz then
            match tzSuffix trimmed.data with
            | some t => ⟨t⟩
            | none =>
              if endsWithZ trimmed.data then "+00:00" else defaultTimezone
          else defaultTimezone
        let changes2 : List ChangeTag :=
          if hasTz then [] else [.timezoneApplied]
        let timePart :=
          padNat 2 hms.1 ++ ":" ++ padNat 2 hms.2.1 ++ ":" ++ padNat 2 hms.2.2
        let formatted := formatYmd parsed ++ "T" ++ timePart ++ tz
        let changes3 : List ChangeTag :=
          if formatted ≠ trimmed then [.dateReformatted] else []
        ⟨formatted, changes1 ++ changes2 ++ changes3⟩

/-- `optimizeValue(value)` of the newer optimizer module: total over
string and numeric cells (`String(value)` before any string method), with
the same cleaning stages. -/
def optimizeValue (v : CellVal) : FieldRes :=
  match v with
  | .undef => ⟨"", []⟩
  | .str "" => ⟨"", []⟩
  | v =>
    let original := jsTrim v.toStr
    let optimized := Optimizer.cleanValueStages original
    ⟨optimized, if optimized ≠ original then [.valueFixed] else []⟩

end OptimizerT

/-! ## Pipeline orchestrator (`App.processData`) -/

namespace App

/-- The characters kept by the pre-filter's
`String(value).replace(/[^0-9.-]/g, '')`. -/
def keepNumChar (c : Char) : Bool :=
  c.isDigit || c = '.' || c = '-'

/-- The pre-validation filter of `processData`: a row is kept exactly when
its conversion value is present (not `undefined`/`null`/empty) and
`parseFloat` of its digit/dot/minus characters is a number greater
than 0. -/
def keepRow (row : Row) : Bool :=
  match row.conversionValue with
  | .undef => false
  | .str "" => false
  | v =>
    match parseFloatJS ⟨v.toStr.data.filter keepNumChar⟩ with
    | none => false
    | some q => q.isPos

/-- The name-setting gate of `processData`: the event name in SocialPlatform
mode and the conversion name otherwise, required non-blank
(`!!(name && name.trim())`). -/
def nameValid (mode : Mode) (settings : Settings) : Bool :=
  match mode with
  | .facebook => jsTrim settings.eventName ≠ ""
  | _ => jsTrim settings.conversionName ≠ ""

/-- The states `processData` computes for one run. -/
structure ProcResult where
  mapped : List Row
  validation : Validator.VResult
  optimizedData : List Row
  changes : List (ChangeTag × Nat)
  exportData : List Optimizer.ExportRow
deriving DecidableEq, Repr

/-- The data flow of `processData`: apply the column mappings, silently
drop rows failing the value pre-filter, validate the remainder, optimize
every remaining row regardless of the validation outcome, and shape the
export rows only when `canExport` holds and the required name setting is
non-blank (otherwise the export set is empty). A `TypeError` raised by
any stage aborts the run (the surrounding `try`/`catch` publishes
nothing). -/
def processCore (digest : String → List Nat) (lib : DateLib) (now : PDate)
    (data : List RawRow) (mappings : Mappings) (mode : Mode)
    (settings : Settings) : Except JSError ProcResult := do
  let mapped0 := applyMappings data mappings
  let mapped := mapped0.filter keepRow
  let validation ← Validator.validateAll lib now mapped mode settings
  let (optimizedData, changes) ← Optimizer.optimizeAll digest lib mapped
    mode settings
  let exportData :=
    if validation.canExport && nameValid mode settings then
      Optimizer.transformToGoogleAdsFormat optimizedData mode
        (match mode with
         | .facebook => settings.eventName
         | _ => settings.conversionName)
    else []
  return ⟨mapped, validation, optimizedData, changes, exportData⟩

end App

/-! ## Claim-side definitions

Definitions in this section transcribe sentences of the specification (not
the code), for comparison with the embedded functions. -/

/-- The specification's grouping-separator rule read literally: a `,` or
space between a digit and *exactly* three digits (three digits followed by
a non-digit or the end) is removed. Compare `Optimizer.remGroupSep`, whose
lookahead only requires at least three following digits. -/
def specExactlyThreeAhead : List Char → Bool
  | a :: b :: c :: rest =>
    a.isDigit && b.isDigit && c.isDigit &&
      !(match rest with
        | d :: _ => d.isDigit
        | [] => false)
  | _ => false

/-- Grouping-separator removal under the specification's
exactly-three-digits reading. -/
def specRemGroupSepExact : List Char → List Char
  | c1 :: c2 :: rest =>
    if c1.isDigit && (c2 = ',' || jsWhitespace c2) &&
        specExactlyThreeAhead rest
    then c1 :: specRemGroupSepExact rest
    else c1 :: specRemGroupSepExact (c2 :: rest)
  | l => l

/-- The full value-cleaning pipeline under the specification's
exactly-three-digits reading of the grouping rule (all other stages as
specified). -/
def specCleanValueExact (s : String) : String :=
  if jsTrim s = "" then ""
  else
    let original := jsTrim s
    let o1 := original.data.filter (fun c => !Optimizer.isCurrencySymbol c)
    let o2 := specRemGroupSepExact o1
    let o3 :=
      if Optimizer.isCommaDecimal o2 then Optimizer.replaceFirstComma o2
      else o2
    ⟨o3.filter (fun c => !jsWhitespace c)⟩

/-- The at-least-three-digits lookahead expressed through the length of the
following digit run (the amended reading of the grouping rule). -/
def specRemGroupSepAtLeast : List Char → List Char
  | c1 :: c2 :: rest =>
    if c1.isDigit && (c2 = ',' || jsWhitespace c2) &&
        3 ≤ (rest.takeWhile Char.isDigit).length
    then c1 :: specRemGroupSepAtLeast rest
    else c1 :: specRemGroupSepAtLeast (c2 :: rest)
  | l => l

/-- The amended value-cleaning description: strip currency symbols; remove
a `,` or whitespace grouping separator exactly when a digit precedes it and
at least three digits follow; convert the comma to a decimal point exactly
when the cleaned text is digits, one comma and one or two trailing digits;
strip remaining whitespace. -/
def specCleanValueAtLeast (s : String) : String :=
  if jsTrim s = "" then ""
  else
    let original := jsTrim s
    let o1 := original.data.filter (fun c => !Optimizer.isCurrencySymbol c)
    let o2 := specRemGroupSepAtLeast o1
    let o3 :=
      if Optimizer.isCommaDecimal o2 then Optimizer.replaceFirstComma o2
      else o2
    ⟨o3.filter (fun c => !jsWhitespace c)⟩

/-- The specification's phone rule read literally: a leading `+` with ten
or more digits renders as-is; exactly ten digits with no `+` get the
configured default country calling code; eleven digits beginning with the
first digit of that configured code render as-is; otherwise the default
code is prefixed onto whatever digits remain. Compare
`Hasher.normalizePhone`, which hard-codes the digit `1` in the eleven-digit
test and does not prefix the code when a `+` was present. -/
def specPhone (phone : String) (defaultCountryCode : String) : String :=
  if phone = "" then ""
  else
    let trimmed := jsTrim phone
    let hasPlus := trimmed.data.head? = some '+'
    let ds := trimmed.data.filter Char.isDigit
    if hasPlus && ds.length ≥ 10 then "+" ++ ⟨ds⟩
    else if ds.length = 10 && !hasPlus then
      "+" ++ defaultCountryCode ++ ⟨ds⟩
    else if ds.length = 11 && ds.head? = defaultCountryCode.data.head? then
      "+" ++ ⟨ds⟩
    else "+" ++ defaultCountryCode ++ ⟨ds⟩

/-- The amended phone description: strip non-digits noting a leading `+`;
`+` with ten or more digits renders as-is; exactly ten digits get the
default code; eleven digits beginning with the literal digit `1` render
as-is; otherwise the digits render with a `+`, prefixed by the default code
only when no `+` was present. -/
def specPhoneAmended (phone : String) (defaultCountryCode : String) :
    String :=
  if phone = "" then ""
  else
    let trimmed := jsTrim phone
    let hasPlus := trimmed.data.head? = some '+'
    let ds := trimmed.data.filter Char.isDigit
    if hasPlus && ds.length ≥ 10 then "+" ++ ⟨ds⟩
    else if ds.length = 10 then "+" ++ defaultCountryCode ++ ⟨ds⟩
    else if ds.length = 11 && ds.head? = some '1' then "+" ++ ⟨ds⟩
    else if hasPlus then "+" ++ ⟨ds⟩
    else "+" ++ defaultCountryCode ++ ⟨ds⟩

/-- The duplicate warnings `validateAll` emits, extracted on their own: the
stream of warnings produced by the accumulating-key scan, starting at
position `index` with `seen` already-seen keys. -/
def dupIssuesSpec (mode : Mode) :
    List Row → Nat → List String → List Issue
  | [], _, _ => []
  | row :: rest, index, seen =>
    (if Validator.dupKey mode row ∈ seen ∧ Validator.dupKey mode row ≠ "-"
     then [Validator.dupWarn mode index] else [])
    ++ dupIssuesSpec mode rest (index + 1) (Validator.dupKey mode row :: seen)

/-- Is a cell not a number (the cells on which no embedded string method
can raise). -/
def CellVal.isNotNum : CellVal → Bool
  | .num _ => false
  | _ => true

/-- A row all of whose cells are strings or absent — the shape CSV parsing
delivers. -/
def Row.strOnly (r : Row) : Bool :=
  r.gclid.isNotNum && r.email.isNotNum && r.phone.isNotNum &&
  r.firstName.isNotNum && r.lastName.isNotNum && r.country.isNotNum &&
  r.zip.isNotNum && r.conversionTime.isNotNum &&
  r.conversionValue.isNotNum && r.currency.isNotNum

/-- A source row all of whose cells are strings or absent. -/
def rawStrOnly (row : RawRow) : Bool :=
  row.all (fun p => p.2.isNotNum)

/-- The claim's description of the orchestrator's pre-filter: the
conversion value is blank, zero, or does not parse as a positive number
(after discarding everything but digits, dots and minus signs). -/
def valueBlankZeroOrNonPositive (row : Row) : Bool :=
  match row.conversionValue with
  | .undef => true
  | .str "" => true
  | v =>
    match parseFloatJS ⟨v.toStr.data.filter App.keepNumChar⟩ with
    | none => true
    | some q => !q.isPos

/-- Well-formedness of a parsed date for rendering: the year fits in four
characters and month/day in two (true of every date the date library or the
`Date` constructor returns on the inputs treated here). -/
def PDate.wfB (p : PDate) : Bool :=
  p.year ≤ 9999 && p.month ≤ 99 && p.day ≤ 99

/-- The hour/minute/second triple chosen by the older date canonicalizer:
the time found in the text, defaulting the seconds to 0, or noon. -/
def hmsOfOld (cs : List Char) : Nat × Nat × Nat :=
  match findTime cs with
  | some (hh, mi, ss) => (hh, mi, ss.getD 0)
  | none => (12, 0, 0)

/-- The hour/minute/second triple chosen by the newer date canonicalizer:
the time found in the text, the current time for today's date, or
23:59:59. -/
def hmsOfNew (now : PDate) (nowTime : Nat × Nat × Nat) (parsed : PDate)
    (cs : List Char) : Nat × Nat × Nat :=
  match findTime cs with
  | some (hh, mi, ss) => (hh, mi, ss.getD 0)
  | none => if parsed = now then nowTime else (23, 59, 59)

/-- The timezone suffix chosen by the date canonicalizers: an explicit
offset is kept, a `Z` becomes `+00:00`, anything else gets the default. -/
def tzOf (dtz : String) (cs : List Char) : String :=
  if (tzSuffix cs).isSome || endsWithZ cs then
    match tzSuffix cs with
    | some t => ⟨t⟩
    | none => if endsWithZ cs then "+00:00" else dtz
  else dtz

/-- Every date the parser recognizes in (the trim of) `s` renders into
four year and two month/day characters. -/
def parseWfB (lib : DateLib) (s : String) : Bool :=
  match tryParseDate lib (jsTrim s) with
  | some p => p.wfB
  | none => true

/-! ## Concrete fixtures used by several scenarios -/

/-- A placeholder digest satisfying the SHA-256 contract (32 bytes). -/
def digestZero : String → List Nat :=
  fun _ => List.replicate 32 0

/-- A fixed run date for concrete evaluations. -/
def nowFix : PDate := ⟨2026, 10, 11⟩

/-- The Standard-scenario settings
`{conversionName: "Lead", timezone: "+00:00", defaultCurrency: "USD"}`. -/
def settingsLead : Settings :=
  { conversionName := "Lead", timezone := "+00:00", defaultCurrency := "USD" }

/-- The Standard-scenario source row
`{gclid: "abc123", conversionTime: "2024-01-15", conversionValue: "$50.00"}`. -/
def rawStd : RawRow :=
  [("gclid", .str "abc123"), ("conversionTime", .str "2024-01-15"),
   ("conversionValue", .str "$50.00")]

/-- The identity mapping for the Standard-scenario columns. -/
def mapStd : Mappings :=
  [(.gclid, "gclid"), (.conversionTime, "conversionTime"),
   (.conversionValue, "conversionValue")]

/-- The row produced by `applyMappings` for the Standard scenario. -/
def rowStdC : Row :=
  { rowIndex := 1, gclid := .str "abc123",
    conversionTime := .str "2024-01-15", conversionValue := .str "$50.00" }

/-- The optimized Standard-scenario row. -/
def optRowStd : Row :=
  { rowIndex := 1, gclid := .str "abc123",
    conversionTime := .str "2024-01-15 12:00:00+00:00",
    conversionValue := .str "50.00", currency := .str "USD" }

/-- The validation result for the Standard scenario when the conversion
date lies outside the 90-day window of `now`. -/
def vresStdWarn : Validator.VResult :=
  ⟨[⟨.warning, .gclidTooOld, 1, .conversionTime⟩], ⟨0, 1, 0, 1⟩, true⟩

/-- The validation result for the Standard scenario when the conversion
date lies within the 90-day window of `now`. -/
def vresStdClean : Validator.VResult := ⟨[], ⟨0, 0, 0, 1⟩, true⟩

/-- The change records of the Standard scenario. -/
def changesStd : List (ChangeTag × Nat) :=
  [(.timeAdded, 1), (.timezoneApplied, 1), (.dateReformatted, 1),
   (.valueFixed, 1)]

/-- The export set of the Standard scenario. -/
def exportStd : List Optimizer.ExportRow :=
  [.std "abc123" "Lead" "2024-01-15 12:00:00+00:00" "50.00" "USD"]

/-- A Standard-mode row whose conversion value is the number 50 (as Excel
parsing delivers it). -/
def rowNumericValue : Row :=
  { rowIndex := 1, gclid := .str "abc123",
    conversionTime := .str "2024-01-15", conversionValue := .num 50 }

/-- A mapped row dropped by the value pre-filter (conversion value 0). -/
def rowDropped : Row :=
  { rowIndex := 1, gclid := .str "x", conversionTime := .str "2024-01-15",
    conversionValue := .str "0" }

/-- A Standard-mode row with identifier `dup` (first of two duplicates). -/
def rowDupA : Row :=
  { rowIndex := 2, gclid := .str "dup", conversionTime := .str "2024-01-15",
    conversionValue := .str "5" }

/-- The duplicate of `rowDupA`, mapped at `_rowIndex` 3. -/
def rowDupB : Row :=
  { rowIndex := 3, gclid := .str "dup", conversionTime := .str "2024-01-15",
    conversionValue := .str "5" }

/-- An EnhancedForLeads row whose email, phone and timestamp are all
empty strings (entirely empty duplicate key). -/
def rowEmptyKey (i : Nat) : Row :=
  { rowIndex := i, email := .str "", phone := .str "",
    conversionTime := .str "", conversionValue := .str "" }

/-- A Standard-mode row with identifier `abc` (the three-duplicates
scenario). -/
def rowAbc (i : Nat) : Row :=
  { rowIndex := i, gclid := .str "abc", conversionTime := .str "2024-01-15",
    conversionValue := .str "5" }

/-- The result `validateAll` computes for the three-duplicates scenario
(three Standard rows sharing identifier `"abc"` and timestamp
`"2024-01-15"`, run at `nowFix`): a staleness warning per row plus exactly
two duplicate warnings, on the second and third rows. -/
def resAbc : Validator.VResult :=
  { issues :=
      [⟨.warning, .gclidTooOld, 1, .conversionTime⟩,
       ⟨.warning, .gclidTooOld, 2, .conversionTime⟩,
       ⟨.warning, .possibleDuplicate, 2, .gclid⟩,
       ⟨.warning, .gclidTooOld, 3, .conversionTime⟩,
       ⟨.warning, .possibleDuplicate, 3, .gclid⟩],
    summary := ⟨0, 5, 0, 3⟩,
    canExport := true }

/-! ## Proof infrastructure -/

/-- Inversion of a successful `Except` bind. -/
theorem exceptBind_ok {ε α β : Type} {x : Except ε α} {f : α → Except ε β}
    {b : β} (h : x >>= f = .ok b) : ∃ a, x = .ok a ∧ f a = .ok b := by
  cases x with
  | ok a => exact ⟨a, rfl, h⟩
  | error e =>
    simp only [Bind.bind, Except.bind] at h
    exact absurd h (fun hh => Except.noConfusion hh)

/-- A successful pure `Except` result. -/
theorem exceptPure_ok {ε α : Type} {a b : α}
    (h : (pure a : Except ε α) = .ok b) : a = b := by
  simp only [pure, Except.pure] at h
  exact Except.ok.inj h

/-- Membership in `dedupFirstAux`. -/
theorem mem_dedupFirstAux [DecidableEq α] (a : α) :
    ∀ (l seen : List α), a ∈ dedupFirstAux seen l ↔ a ∈ l ∧ a ∉ seen := by
  intro l
  induction l with
  | nil => intro seen; simp [dedupFirstAux]
  | cons b t ih =>
    intro seen
    by_cases hb : b ∈ seen
    · simp only [dedupFirstAux, if_pos hb, ih, List.mem_cons]
      constructor
      · rintro ⟨ht, hs⟩; exact ⟨Or.inr ht, hs⟩
      · rintro ⟨hbt, hs⟩
        refine ⟨?_, hs⟩
        rcases hbt with rfl | ht
        · exact absurd hb hs
        · exact ht
    · simp only [dedupFirstAux, if_neg hb, List.mem_cons, ih]
      by_cases hab : a = b
      · subst hab; simp [hb]
      · simp only [hab, false_or]

/-- `[...new Set(list)]` preserves membership. -/
theorem mem_dedupFirst [DecidableEq α] {a : α} {l : List α} :
    a ∈ dedupFirst l ↔ a ∈ l := by
  simp [dedupFirst, mem_dedupFirstAux]

/-- The Standard identity check only ever reports the missing-identifier
error. -/
theorem requireGclid_msgs {row : Row} {is : List Issue}
    (h : Validator.requireGclid row = .ok is) :
    ∀ i ∈ is, i.message = .missingGclid := by
  cases hg : row.gclid <;>
    simp only [Validator.requireGclid, hg, CellVal.truthy, CellVal.trimE,
      Bind.bind, Except.bind, pure, Except.pure] at h <;>
    (try split at h) <;> (try split at h) <;> (try split at h) <;>
    first
      | exact Except.noConfusion h
      | (replace h := Except.ok.inj h; subst h; simp)
      | (subst h; simp)

/-- The EC4L identity check only ever reports the missing-contact error. -/
theorem requireEmailOrPhone_msgs {row : Row} {is : List Issue}
    (h : Validator.requireEmailOrPhone row = .ok is) :
    ∀ i ∈ is, i.message = .missingEmailOrPhone := by
  cases he : row.email <;> cases hp : row.phone <;>
    simp only [Validator.requireEmailOrPhone, he, hp, CellVal.truthy,
      CellVal.trimE, Bind.bind, Except.bind, pure, Except.pure] at h <;>
    (try split at h) <;> (try split at h) <;> (try split at h) <;>
    (try split at h) <;>
    first
      | exact Except.noConfusion h
      | (replace h := Except.ok.inj h; subst h; simp)
      | (subst h; simp)

/-- `validateDate` only ever reports the parse error or a staleness
warning. -/
theorem validateDate_msgs {lib : DateLib} {now : PDate} {s : String}
    {idx : Nat} {mode : Mode} :
    ∀ i ∈ Validator.validateDate lib now s idx mode,
      i.message = .invalidDate ∨ i.message = .gclidTooOld ∨
        i.message = .ec4lTooOld := by
  unfold Validator.validateDate
  split <;> (try split) <;> (try split) <;> simp_all

/-- The conversion-time check only ever reports time-related messages. -/
theorem checkTime_msgs {lib : DateLib} {now : PDate} {row : Row}
    {mode : Mode} {is : List Issue}
    (h : Validator.checkTime lib now row mode = .ok is) :
    ∀ i ∈ is, i.message = .missingConversionTime ∨ i.message = .invalidDate ∨
      i.message = .gclidTooOld ∨ i.message = .ec4lTooOld := by
  cases ht : row.conversionTime <;>
    simp only [Validator.checkTime, ht] at h <;>
    (try split at h) <;>
    first
      | exact Except.noConfusion h
      | (replace h := Except.ok.inj h; subst h; simp)
      | (subst h; simp)
      | (replace h := Except.ok.inj h; subst h;
         intro i hi;
         rcases validateDate_msgs i hi with h1 | h1 | h1 <;> simp [h1])

/-- The conversion-value check only ever reports value messages. -/
theorem checkValue_msgs {row : Row} {is : List Issue}
    (h : Validator.checkValue row = .ok is) :
    ∀ i ∈ is, i.message = .missingValue ∨ i.message = .invalidValue := by
  cases hv : row.conversionValue <;>
    simp only [Validator.checkValue, hv, Validator.validateValue] at h <;>
    (try split at h) <;> (try split at h) <;>
    first
      | exact Except.noConfusion h
      | (replace h := Except.ok.inj h; subst h; simp)
      | (subst h; simp)

/-- The currency check only ever reports the missing-currency warning. -/
theorem checkCurrency_msgs {row : Row} {settings : Settings}
    {is : List Issue}
    (h : Validator.checkCurrency row settings = .ok is) :
    ∀ i ∈ is, i.message = .missingCurrency := by
  cases hv : row.conversionValue <;>
    simp only [Validator.checkCurrency, hv, CellVal.truthy, CellVal.trimE,
      Bind.bind, Except.bind, pure, Except.pure] at h <;>
    (try split at h) <;> (try split at h) <;> (try split at h) <;>
    (try split at h) <;>
    first
      | exact Except.noConfusion h
      | (replace h := Except.ok.inj h; subst h; simp)
      | (subst h; simp)

/-- The shared tail of `validateRow` (time, value and currency checks
appended to given identity issues) never emits the duplicate warning. -/
theorem validateRowTail_no_dup {lib : DateLib} {now : PDate} {row : Row}
    {mode : Mode} {settings : Settings} {idis is : List Issue}
    (hid2 : ∀ i ∈ idis, i.message ≠ .possibleDuplicate)
    (h : (do
      let timeIssues ← Validator.checkTime lib now row mode
      let valueIssues ← Validator.checkValue row
      let currencyIssues ← Validator.checkCurrency row settings
      pure (idis ++ timeIssues ++ valueIssues ++ currencyIssues) :
        Except JSError (List Issue)) = .ok is) :
    ∀ i ∈ is, i.message ≠ .possibleDuplicate := by
  obtain ⟨tis, htime, h⟩ := exceptBind_ok h
  obtain ⟨vis, hvalue, h⟩ := exceptBind_ok h
  obtain ⟨cis, hcurrency, h⟩ := exceptBind_ok h
  replace h := exceptPure_ok h
  subst h
  intro i hi
  rcases List.mem_append.mp hi with hi1 | hi2
  · rcases List.mem_append.mp hi1 with hi3 | hi4
    · rcases List.mem_append.mp hi3 with hi5 | hi6
      · exact hid2 i hi5
      · rcases checkTime_msgs htime i hi6 with h1 | h1 | h1 | h1 <;>
          simp [h1]
    · rcases checkValue_msgs hvalue i hi4 with h1 | h1 <;> simp [h1]
  · simp [checkCurrency_msgs hcurrency i hi2]

/-- `validateRow` never emits the duplicate warning: everything it reports
comes from the per-row rules. -/
theorem validateRow_no_dup {lib : DateLib} {now : PDate} {row : Row}
    {mode : Mode} {settings : Settings} {is : List Issue}
    (h : Validator.validateRow lib now row mode settings = .ok is) :
    ∀ i ∈ is, i.message ≠ .possibleDuplicate := by
  cases mode with
  | standard =>
    simp only [Validator.validateRow] at h
    obtain ⟨idis, hid, h⟩ := exceptBind_ok h
    exact validateRowTail_no_dup
      (fun i hi => by simp [requireGclid_msgs hid i hi]) h
  | ec4l =>
    simp only [Validator.validateRow] at h
    obtain ⟨idis, hid, h⟩ := exceptBind_ok h
    exact validateRowTail_no_dup
      (fun i hi => by simp [requireEmailOrPhone_msgs hid i hi]) h
  | facebook =>
    simp only [Validator.validateRow] at h
    obtain ⟨idis, hid, h⟩ := exceptBind_ok h
    replace hid := exceptPure_ok hid
    subst hid
    exact validateRowTail_no_dup (by intro i hi; cases hi) h

/-- The duplicate warnings embedded in the issue stream of
`validateAllGo` are exactly the accumulating-key scan `dupIssuesSpec`. -/
theorem validateAllGo_dup_filter {lib : DateLib} {now : PDate} {mode : Mode}
    {settings : Settings} :
    ∀ (rows : List Row) (index : Nat) (seen : List String)
      (is : List Issue),
      Validator.validateAllGo lib now mode settings rows index seen =
        .ok is →
      is.filter (fun i => i.message = .possibleDuplicate) =
        dupIssuesSpec mode rows index seen := by
  intro rows
  induction rows with
  | nil =>
    intro index seen is h
    replace h := Except.ok.inj h
    subst h
    simp [dupIssuesSpec]
  | cons row rest ih =>
    intro index seen is h
    simp only [Validator.validateAllGo] at h
    obtain ⟨ri, hri, h⟩ := exceptBind_ok h
    obtain ⟨restIs, hrest, h⟩ := exceptBind_ok h
    replace h := exceptPure_ok h
    subst h
    rw [List.filter_append, List.filter_append]
    have h1 : ri.filter (fun i => i.message = .possibleDuplicate) = [] := by
      rw [List.filter_eq_nil_iff]
      intro a ha
      simp [validateRow_no_dup hri a ha]
    have h2 :
        (if Validator.dupKey mode row ∈ seen ∧
            Validator.dupKey mode row ≠ "-"
         then [Validator.dupWarn mode index] else []).filter
          (fun i => i.message = .possibleDuplicate) =
        (if Validator.dupKey mode row ∈ seen ∧
            Validator.dupKey mode row ≠ "-"
         then [Validator.dupWarn mode index] else []) := by
      split <;> simp [Validator.dupWarn]
    rw [h1, h2, ih _ _ _ hrest]
    simp [dupIssuesSpec]

/-- Every duplicate warning in the scan starting at `index` points at a
position strictly beyond `index`. -/
theorem dupIssuesSpec_rowIndex_ge {mode : Mode} :
    ∀ (rows : List Row) (index : Nat) (seen : List String),
      ∀ i ∈ dupIssuesSpec mode rows index seen, index + 1 ≤ i.rowIndex := by
  intro rows
  induction rows with
  | nil => intro index seen i hi; cases hi
  | cons row rest ih =>
    intro index seen i hi
    simp only [dupIssuesSpec] at hi
    rcases List.mem_append.mp hi with h1 | h2
    · split at h1
      · rcases List.mem_singleton.mp h1 with rfl
        simp [Validator.dupWarn]
      · cases h1
    · have := ih (index + 1) _ i h2
      omega

/-- Per-position count of duplicate warnings in the scan: position `i`
carries exactly one warning when its key repeats an earlier key (or one in
`seen`) and differs from `"-"`, and none otherwise. -/
theorem dupIssuesSpec_count {mode : Mode} :
    ∀ (rows : List Row) (index : Nat) (seen : List String) (i : Nat)
      (h : i < rows.length),
      ((dupIssuesSpec mode rows index seen).filter
        (fun x => x.rowIndex = index + i + 1)).length =
      if (Validator.dupKey mode (rows.get ⟨i, h⟩) ∈
            (rows.take i).map (Validator.dupKey mode) ∨
          Validator.dupKey mode (rows.get ⟨i, h⟩) ∈ seen) ∧
          Validator.dupKey mode (rows.get ⟨i, h⟩) ≠ "-"
      then 1 else 0 := by
  intro rows
  induction rows with
  | nil => intro index seen i h; exact absurd h (Nat.not_lt_zero i)
  | cons row rest ih =>
    intro index seen i h
    cases i with
    | zero =>
      simp only [dupIssuesSpec, List.filter_append, List.get_cons_zero,
        List.take_zero, List.map_nil, List.not_mem_nil, false_or]
      have hrest : (dupIssuesSpec mode rest (index + 1)
          (Validator.dupKey mode row :: seen)).filter
            (fun x => x.rowIndex = index + 0 + 1) = [] := by
        rw [List.filter_eq_nil_iff]
        intro a ha
        have := dupIssuesSpec_rowIndex_ge rest (index + 1) _ a ha
        simp only [decide_eq_true_eq]
        omega
      rw [hrest]
      have hget : (row :: rest).get ⟨0, h⟩ = row := rfl
      rw [hget]
      by_cases hc : Validator.dupKey mode row ∈ seen ∧
          Validator.dupKey mode row ≠ "-"
      · rw [if_pos hc, if_pos hc]
        simp [Validator.dupWarn]
      · rw [if_neg hc, if_neg hc]
        simp
    | succ j =>
      have hj : j < rest.length := Nat.lt_of_succ_lt_succ h
      simp only [dupIssuesSpec, List.filter_append, List.get_cons_succ]
      have hhead :
          (if Validator.dupKey mode row ∈ seen ∧
              Validator.dupKey mode row ≠ "-"
           then [Validator.dupWarn mode index] else []).filter
            (fun x => x.rowIndex = index + (j + 1) + 1) = [] := by
        split
        · simp only [List.filter_eq_nil_iff]
          intro a ha
          rcases List.mem_singleton.mp ha with rfl
          simp only [Validator.dupWarn, decide_eq_true_eq]
          omega
        · rfl
      rw [hhead]
      have harith : index + (j + 1) + 1 = (index + 1) + j + 1 := by omega
      rw [List.nil_append, harith, ih (index + 1) _ j hj]
      have hiff :
          (Validator.dupKey mode (rest.get ⟨j, hj⟩) ∈
              (rest.take j).map (Validator.dupKey mode) ∨
            Validator.dupKey mode (rest.get ⟨j, hj⟩) ∈
              Validator.dupKey mode row :: seen) ↔
          (Validator.dupKey mode (rest.get ⟨j, hj⟩) ∈
              ((row :: rest).take (j + 1)).map (Validator.dupKey mode) ∨
            Validator.dupKey mode (rest.get ⟨j, hj⟩) ∈ seen) := by
        simp only [List.take_succ_cons, List.map_cons, List.mem_cons]
        tauto
      rw [if_congr (and_congr_left' hiff) rfl rfl]

set_option maxRecDepth 4096 in
/-- Every byte below 256 hex-encodes to exactly two hexadecimal
characters. -/
theorem byteHex_facts :
    ∀ b < 256, (Hasher.byteHex b).length = 2 ∧
      (Hasher.byteHex b).all Hasher.isHexCI = true := by
  decide

/-- The flat hex encoding of a byte list: twice as many characters, all
hexadecimal. -/
theorem flatten_byteHex_facts :
    ∀ bs : List Nat, (∀ b ∈ bs, b < 256) →
      ((bs.map Hasher.byteHex).flatten.length = 2 * bs.length ∧
        ∀ c ∈ (bs.map Hasher.byteHex).flatten, Hasher.isHexCI c = true) := by
  intro bs
  induction bs with
  | nil => intro _; simp
  | cons b t ih =>
    intro hb
    have hbb : b < 256 := hb b (List.mem_cons_self b t)
    have ⟨hl, ha⟩ := byteHex_facts b hbb
    have ⟨ihl, iha⟩ := ih (fun x hx => hb x (List.mem_cons_of_mem b hx))
    constructor
    · simp only [List.map_cons, List.flatten_cons, List.length_append, hl,
        ihl, List.length_cons]
      ring
    · intro c hc
      simp only [List.map_cons, List.flatten_cons, List.mem_append] at hc
      rcases hc with hc | hc
      · exact List.all_eq_true.mp ha c hc
      · exact iha c hc

/-- Hexadecimal characters are not whitespace. -/
theorem isHexCI_not_ws {c : Char} (h : Hasher.isHexCI c = true) :
    jsWhitespace c = false := by
  by_cases hw : jsWhitespace c = true
  · simp only [jsWhitespace, Bool.or_eq_true, decide_eq_true_eq] at hw
    rcases hw with ((rfl | rfl) | rfl) | rfl <;> exact absurd h (by decide)
  · exact Bool.eq_false_iff.mpr hw

/-- `dropWhile` is the identity on a list none of whose elements satisfy
the predicate. -/
theorem dropWhile_of_all_false {p : Char → Bool} :
    ∀ l : List Char, (∀ c ∈ l, p c = false) → l.dropWhile p = l := by
  intro l h
  cases l with
  | nil => rfl
  | cons a t =>
    rw [List.dropWhile_cons, h a (List.mem_cons_self a t)]
    simp

/-- Trimming is the identity on a string of hexadecimal characters. -/
theorem trimChars_of_hex {cs : List Char}
    (h : ∀ c ∈ cs, Hasher.isHexCI c = true) : trimChars cs = cs := by
  unfold trimChars
  rw [dropWhile_of_all_false cs (fun c hc => isHexCI_not_ws (h c hc)),
    dropWhile_of_all_false cs.reverse
      (fun c hc => isHexCI_not_ws (h c (List.mem_reverse.mp hc))),
    List.reverse_reverse]

/-- The date rewrite only records date-related changes. -/
theorem optimizeDateS_changes {lib : DateLib} {s tz : String} :
    ∀ t ∈ (Optimizer.optimizeDateS lib s tz).changes,
      t = .timeAdded ∨ t = .timezoneApplied ∨ t = .dateReformatted := by
  intro t ht
  simp only [Optimizer.optimizeDateS] at ht
  split at ht
  · cases ht
  · split at ht
    · cases ht
    · split at ht
      · cases ht
      · simp only [List.mem_append] at ht
        rcases ht with (ht | ht) | ht
        · split at ht <;> simp_all
        · split at ht <;> simp_all
        · split at ht <;> simp_all

/-- The date rewrite on a raw cell only records date-related changes. -/
theorem optimizeDate_changes {lib : DateLib} {v : CellVal} {tz : String}
    {res : FieldRes} (h : Optimizer.optimizeDate lib v tz = .ok res) :
    ∀ t ∈ res.changes,
      t = .timeAdded ∨ t = .timezoneApplied ∨ t = .dateReformatted := by
  cases v with
  | str s =>
    replace h := Except.ok.inj (h : _)
    subst h
    exact optimizeDateS_changes
  | num n =>
    simp only [Optimizer.optimizeDate] at h
    split at h
    · replace h := Except.ok.inj h; subst h; intro t ht; cases ht
    · exact Except.noConfusion h
  | undef =>
    replace h := Except.ok.inj (h : _)
    subst h
    intro t ht
    cases ht

/-- The value rewrite only ever records `valueFixed`. -/
theorem optimizeValue_changes {v : CellVal} {res : FieldRes}
    (h : Optimizer.optimizeValue v = .ok res) :
    ∀ t ∈ res.changes, t = .valueFixed := by
  cases v with
  | str s =>
    replace h := Except.ok.inj (h : _)
    subst h
    simp only [Optimizer.optimizeValueS]
    split
    · intro t ht; cases ht
    · split <;> simp_all
  | num n =>
    simp only [Optimizer.optimizeValue] at h
    split at h
    · replace h := Except.ok.inj h; subst h; intro t ht; cases ht
    · exact Except.noConfusion h
  | undef =>
    replace h := Except.ok.inj (h : _)
    subst h
    intro t ht
    cases ht

/-- The currency rewrite only ever records `currencyFixed`. -/
theorem optimizeCurrency_changes {v : CellVal} {dc : String}
    {res : FieldRes} (h : Optimizer.optimizeCurrency v dc = .ok res) :
    ∀ t ∈ res.changes, t = .currencyFixed := by
  cases v with
  | str s =>
    simp only [Optimizer.optimizeCurrency] at h
    split at h <;> replace h := Except.ok.inj h <;> subst h
    · split <;> simp
    · split <;> simp_all
  | num n =>
    simp only [Optimizer.optimizeCurrency] at h
    split at h
    · replace h := Except.ok.inj h
      subst h
      split <;> simp
    · exact Except.noConfusion h
  | undef =>
    replace h := Except.ok.inj (h : _)
    subst h
    split <;> simp

/-- `isAlreadyHashed` on a string cell is the string-level test. -/
theorem isAlreadyHashedE_str (s : String) :
    Hasher.isAlreadyHashedE (.str s) = .ok (Hasher.isAlreadyHashedS s) := by
  simp only [Hasher.isAlreadyHashedE]
  split
  · rename_i hs
    subst hs
    norm_num [Hasher.isAlreadyHashedS, jsTrim, trimChars]
  · rfl

/-- A value already recognized as a digest passes through the hashing step
untouched, with no change recorded. -/
theorem hashStep_already {digest : String → List Nat} {s : String}
    {kind : Hasher.HashKind} {tag : List ChangeTag}
    (hs : Hasher.isAlreadyHashedS s = true) :
    Optimizer.hashStep digest (.str s) kind tag = .ok (.str s, []) := by
  have hne : s ≠ "" := by
    intro h
    subst h
    exact absurd hs (by decide)
  simp [Optimizer.hashStep, CellVal.truthy, hne, isAlreadyHashedE_str, hs,
    Bind.bind, Except.bind, pure, Except.pure]

/-- The hashing step records either its own tag or nothing. -/
theorem hashStep_changes {digest : String → List Nat} {v : CellVal}
    {kind : Hasher.HashKind} {tag : List ChangeTag}
    {out : CellVal × List ChangeTag}
    (h : Optimizer.hashStep digest v kind tag = .ok out) :
    out.2 = tag ∨ out.2 = [] := by
  unfold Optimizer.hashStep at h
  split at h
  · obtain ⟨already, ha, h⟩ := exceptBind_ok h
    split at h
    · obtain ⟨hv, hh, h⟩ := exceptBind_ok h
      replace h := exceptPure_ok h
      subst h
      left
      rfl
    · replace h := exceptPure_ok h
      subst h
      right
      rfl
  · replace h := exceptPure_ok h
    subst h
    right
    rfl

/-- The base (date/value/currency) changes of `optimizeRow` never contain
a hashing tag. -/
theorem baseChanges_no_hash {lib : DateLib} {row : Row} {tz dc : String}
    {dres : FieldRes} {vp : CellVal × List ChangeTag} {cres : FieldRes}
    (hd : Optimizer.optimizeDate lib row.conversionTime tz = .ok dres)
    (hv : Optimizer.optimizeValuePair row.conversionValue = .ok vp)
    (hc : Optimizer.optimizeCurrency row.currency dc = .ok cres) :
    ∀ x ∈ dres.changes ++ vp.2 ++ cres.changes,
      x ≠ .emailHashed ∧ x ≠ .phoneHashed ∧ x ≠ .nameHashed := by
  have hvch : ∀ x ∈ vp.2, x = ChangeTag.valueFixed := by
    unfold Optimizer.optimizeValuePair at hv
    split at hv
    · obtain ⟨vr, hvr, hv⟩ := exceptBind_ok hv
      replace hv := exceptPure_ok hv
      subst hv
      exact optimizeValue_changes hvr
    · replace hv := exceptPure_ok hv
      subst hv
      intro x hx
      cases hx
  intro x hx
  rcases List.mem_append.mp hx with hx1 | hx2
  · rcases List.mem_append.mp hx1 with hx3 | hx4
    · rcases optimizeDate_changes hd x hx3 with h1 | h1 | h1 <;>
        subst h1 <;> exact ⟨by simp, by simp, by simp⟩
    · have := hvch x hx4
      subst this
      exact ⟨by simp, by simp, by simp⟩
  · have := optimizeCurrency_changes hc x hx2
    subst this
    exact ⟨by simp, by simp, by simp⟩

/-- Changes of the last-name step: the shared name tag or nothing. -/
theorem lastNameStep_inv {digest : String → List Nat} {fn ln : CellVal}
    {lp : CellVal × List ChangeTag}
    (hl : Optimizer.lastNameStep digest fn ln = .ok lp) :
    lp.2 = [ChangeTag.nameHashed] ∨ lp.2 = [] := by
  unfold Optimizer.lastNameStep at hl
  split at hl
  · obtain ⟨already, ha, hl⟩ := exceptBind_ok hl
    split at hl
    · obtain ⟨hh, hhh, hl⟩ := exceptBind_ok hl
      obtain ⟨rg, hrg, hl⟩ := exceptBind_ok hl
      replace hl := exceptPure_ok hl
      subst hl
      split <;> simp
    · replace hl := exceptPure_ok hl
      subst hl
      right
      rfl
  · replace hl := exceptPure_ok hl
    subst hl
    right
    rfl

/-- A last name already recognized as a digest passes through the
last-name step untouched, with no change recorded. -/
theorem lastNameStep_already {digest : String → List Nat} {fn : CellVal}
    {s : String} (hhs : Hasher.isAlreadyHashedS s = true) :
    Optimizer.lastNameStep digest fn (.str s) = .ok (.str s, []) := by
  have hne : s ≠ "" := by
    intro h
    subst h
    exact absurd hhs (by decide)
  simp [Optimizer.lastNameStep, CellVal.truthy, hne, isAlreadyHashedE_str,
    hhs, Bind.bind, Except.bind, pure, Except.pure]

/-- C5: the hex digest of any 32-byte SHA-256 output is recognized by
`isAlreadyHashed` (it is 64 case-insensitive hexadecimal characters), and
`optimizeRow` never re-hashes a PII value already recognized as a digest:
the value passes through unchanged and no hashing change tag is recorded
for it (for the shared name tag: when both names are digests, no name tag
appears). -/
theorem hashing_idempotent :
    (∀ (digest : String → List Nat) (t : String),
      (digest t).length = 32 → (∀ b ∈ digest t, b < 256) →
      Hasher.isAlreadyHashedS (Hasher.sha256Hash digest t) = true)
    ∧ (∀ (digest : String → List Nat) (lib : DateLib) (row : Row)
         (mode : Mode) (settings : Settings) (out : Row × List ChangeTag),
        Optimizer.optimizeRow digest lib row mode settings = .ok out →
        (∀ s : String, row.email = .str s →
          Hasher.isAlreadyHashedS s = true →
          out.1.email = row.email ∧ ChangeTag.emailHashed ∉ out.2)
        ∧ (∀ s : String, row.phone = .str s →
          Hasher.isAlreadyHashedS s = true →
          out.1.phone = row.phone ∧ ChangeTag.phoneHashed ∉ out.2)
        ∧ (∀ s : String, row.firstName = .str s →
          Hasher.isAlreadyHashedS s = true →
          out.1.firstName = row.firstName)
        ∧ (∀ s s' : String, row.firstName = .str s →
          Hasher.isAlreadyHashedS s = true → row.lastName = .str s' →
          Hasher.isAlreadyHashedS s' = true →
          out.1.lastName = row.lastName ∧
            ChangeTag.nameHashed ∉ out.2)) := by
  constructor
  · intro digest t h32 hb
    have ⟨hl, ha⟩ := flatten_byteHex_facts (digest t) hb
    simp only [Hasher.sha256Hash, Hasher.isAlreadyHashedS, jsTrim,
      trimChars_of_hex (fun c hc => ha c hc)]
    rw [h32] at hl
    rw [hl]
    simp only [Nat.reduceMul, decide_eq_true_eq, List.all_eq_true,
      Bool.and_eq_true, decide_eq_true_eq]
    exact ⟨by trivial, fun c hc => ha c hc⟩
  · intro digest lib row mode settings out h
    simp only [Optimizer.optimizeRow] at h
    obtain ⟨dres, hd, h⟩ := exceptBind_ok h
    obtain ⟨vp, hv, h⟩ := exceptBind_ok h
    obtain ⟨cres, hc, h⟩ := exceptBind_ok h
    have hbase := baseChanges_no_hash hd hv hc
    split at h
    · -- EC4L branch: the PII steps
      obtain ⟨ep, he, h⟩ := exceptBind_ok h
      obtain ⟨pp, hp, h⟩ := exceptBind_ok h
      obtain ⟨fp, hf, h⟩ := exceptBind_ok h
      obtain ⟨lp, hl, h⟩ := exceptBind_ok h
      obtain ⟨co, hco, h⟩ := exceptBind_ok h
      obtain ⟨zi, hzi, h⟩ := exceptBind_ok h
      replace h := exceptPure_ok h
      subst h
      have hec := hashStep_changes he
      have hpc := hashStep_changes hp
      have hfc := hashStep_changes hf
      have hlc := lastNameStep_inv hl
      refine ⟨?_, ?_, ?_, ?_⟩
      · intro s hes hhs
        rw [hes, hashStep_already hhs] at he
        replace he := (Except.ok.inj he).symm
        constructor
        · simp [he, hes]
        · intro hmem
          rw [mem_dedupFirst] at hmem
          simp only [List.mem_append] at hmem
          rcases hmem with (((((hm | hm) | hm) | hm) | hm) | hm) | hm
          · exact (hbase _ (by simp [List.mem_append, hm])).1 rfl
          · exact (hbase _ (by simp [List.mem_append, hm])).1 rfl
          · exact (hbase _ (by simp [List.mem_append, hm])).1 rfl
          · simp [he] at hm
          · rcases hpc with h2 | h2 <;> simp [h2] at hm
          · rcases hfc with h2 | h2 <;> simp [h2] at hm
          · rcases hlc with h2 | h2 <;> simp [h2] at hm
      · intro s hps hhs
        rw [hps, hashStep_already hhs] at hp
        replace hp := (Except.ok.inj hp).symm
        constructor
        · simp [hp, hps]
        · intro hmem
          rw [mem_dedupFirst] at hmem
          simp only [List.mem_append] at hmem
          rcases hmem with (((((hm | hm) | hm) | hm) | hm) | hm) | hm
          · exact (hbase _ (by simp [List.mem_append, hm])).2.1 rfl
          · exact (hbase _ (by simp [List.mem_append, hm])).2.1 rfl
          · exact (hbase _ (by simp [List.mem_append, hm])).2.1 rfl
          · rcases hec with h2 | h2 <;> simp [h2] at hm
          · simp [hp] at hm
          · rcases hfc with h2 | h2 <;> simp [h2] at hm
          · rcases hlc with h2 | h2 <;> simp [h2] at hm
      · intro s hfs hhs
        rw [hfs, hashStep_already hhs] at hf
        replace hf := (Except.ok.inj hf).symm
        simp [hf, hfs]
      · intro s s' hfs hhs hls hhs'
        rw [hls, lastNameStep_already hhs'] at hl
        replace hl := (Except.ok.inj hl).symm
        rw [hfs, hashStep_already hhs] at hf
        replace hf := (Except.ok.inj hf).symm
        constructor
        · simp [hl, hls]
        · intro hmem
          rw [mem_dedupFirst] at hmem
          simp only [List.mem_append] at hmem
          rcases hmem with (((((hm | hm) | hm) | hm) | hm) | hm) | hm
          · exact (hbase _ (by simp [List.mem_append, hm])).2.2 rfl
          · exact (hbase _ (by simp [List.mem_append, hm])).2.2 rfl
          · exact (hbase _ (by simp [List.mem_append, hm])).2.2 rfl
          · rcases hec with h2 | h2 <;> simp [h2] at hm
          · rcases hpc with h2 | h2 <;> simp [h2] at hm
          · simp [hf] at hm
          · simp [hl] at hm
    · -- non-EC4L branch: PII untouched, only base changes recorded
      replace h := exceptPure_ok h
      subst h
      refine ⟨?_, ?_, ?_, ?_⟩
      · intro s hes hhs
        refine ⟨rfl, ?_⟩
        intro hmem
        rw [mem_dedupFirst] at hmem
        exact (hbase _ hmem).1 rfl
      · intro s hps hhs
        refine ⟨rfl, ?_⟩
        intro hmem
        rw [mem_dedupFirst] at hmem
        exact (hbase _ hmem).2.1 rfl
      · intro s hfs hhs
        rfl
      · intro s s' hfs hhs hls hhs'
        refine ⟨rfl, ?_⟩
        intro hmem
        rw [mem_dedupFirst] at hmem
        exact (hbase _ hmem).2.2 rfl

/-- Witness for the hashing idempotence: a placeholder digest meeting the
32-byte contract yields a recognized hex digest, and a row whose email is
already a 64-hex digest passes through `optimizeRow` unchanged with no
hashing tag. -/
theorem hashing_idempotent_witness :
    (Hasher.isAlreadyHashedS (Hasher.sha256Hash digestZero "x") = true)
    ∧ (({ rowIndex := 1, email := .str ⟨List.replicate 64 'a'⟩,
          conversionTime := .str "", conversionValue := .str "" } :
            Row).email =
        CellVal.str ⟨List.replicate 64 'a'⟩
      ∧ ChangeTag.emailHashed ∉ ([] : List ChangeTag)) :=
  ⟨hashing_idempotent.1 digestZero "x" (by decide) (by decide),
   (hashing_idempotent.2 digestZero jsDateLib
      { rowIndex := 1, email := .str ⟨List.replicate 64 'a'⟩,
        conversionTime := .str "", conversionValue := .str "" }
      .ec4l {}
      ({ rowIndex := 1, email := .str ⟨List.replicate 64 'a'⟩,
         conversionTime := .str "", conversionValue := .str "",
         currency := .str "" }, [])
      (by decide)).1 ⟨List.replicate 64 'a'⟩ rfl (by decide)⟩

/-- Setting a non-numeric cell preserves the string-only shape. -/
theorem strOnly_set {r : Row} {f : Field} {v : CellVal}
    (hr : r.strOnly = true) (hv : v.isNotNum = true) :
    (r.set f v).strOnly = true := by
  cases f <;> simp_all [Row.set, Row.strOnly]

/-- A looked-up cell of a string-only source row is not a number. -/
theorem rawLookup_isNotNum {row : RawRow} {k : String} {v : CellVal}
    (hrow : rawStrOnly row = true) (h : rawLookup row k = some v) :
    v.isNotNum = true := by
  unfold rawLookup at h
  cases hf : List.find? (fun p => p.1 = k) row with
  | none => rw [hf] at h; cases h
  | some p =>
    rw [hf] at h
    replace h := Option.some.inj h
    subst h
    exact List.all_eq_true.mp hrow p (List.mem_of_find?_eq_some hf)

/-- The mapping fold preserves the string-only shape. -/
theorem mappingsFold_strOnly {raw : RawRow} (hraw : rawStrOnly raw = true) :
    ∀ (mappings : Mappings) (acc : Row), acc.strOnly = true →
      (mappings.foldl
        (fun acc fm =>
          if fm.2 ≠ "" then
            match rawLookup raw fm.2 with
            | some v => if v = .undef then acc else acc.set fm.1 v
            | none => acc
          else acc)
        acc).strOnly = true := by
  intro mappings
  induction mappings with
  | nil => intro acc hacc; exact hacc
  | cons fm rest ih =>
    intro acc hacc
    rw [List.foldl_cons]
    apply ih
    split
    · split
      next v hv =>
        split
        · exact hacc
        · exact strOnly_set hacc (rawLookup_isNotNum hraw hv)
      next hv => exact hacc
    · exact hacc

/-- Mapping string-only source rows produces string-only mapped rows. -/
theorem applyMappings_strOnly {data : List RawRow} {mappings : Mappings}
    (hdata : ∀ r ∈ data, rawStrOnly r = true) :
    ∀ row ∈ applyMappings data mappings, row.strOnly = true := by
  intro row hrow
  unfold applyMappings at hrow
  rw [List.mem_map] at hrow
  obtain ⟨p, hp, hrow⟩ := hrow
  subst hrow
  have hpr : rawStrOnly p.2 = true := by
    have hmem := List.mem_enum_iff_getElem?.mp hp
    exact hdata p.2 (List.getElem?_mem hmem)
  exact mappingsFold_strOnly hpr mappings _ (by simp [Row.strOnly, CellVal.isNotNum])

/-- The string-only shape survives the value pre-filter. -/
theorem filter_strOnly {rows : List Row}
    (h : ∀ row ∈ rows, row.strOnly = true) :
    ∀ row ∈ rows.filter App.keepRow, row.strOnly = true := by
  intro row hrow
  exact h row (List.mem_of_mem_filter hrow)

/-- The Standard identity check succeeds on non-numeric cells. -/
theorem requireGclid_total {row : Row} (h : row.gclid.isNotNum = true) :
    ∃ is, Validator.requireGclid row = .ok is := by
  cases hg : row.gclid with
  | str s =>
    simp only [Validator.requireGclid, hg, CellVal.truthy, CellVal.trimE,
      Bind.bind, Except.bind, pure, Except.pure]
    split
    · exact ⟨_, rfl⟩
    · split <;> exact ⟨_, rfl⟩
  | num n => simp [hg, CellVal.isNotNum] at h
  | undef =>
    simp only [Validator.requireGclid, hg, CellVal.truthy, CellVal.trimE,
      Bind.bind, Except.bind, pure, Except.pure]
    split <;> (try split) <;> first | exact ⟨_, rfl⟩ | simp_all

/-- The EC4L identity check succeeds on non-numeric cells. -/
theorem requireEmailOrPhone_total {row : Row}
    (he : row.email.isNotNum = true) (hp : row.phone.isNotNum = true) :
    ∃ is, Validator.requireEmailOrPhone row = .ok is := by
  cases hge : row.email with
  | num n => simp [hge, CellVal.isNotNum] at he
  | _ =>
    cases hgp : row.phone with
    | num n => simp [hgp, CellVal.isNotNum] at hp
    | _ =>
      simp only [Validator.requireEmailOrPhone, hge, hgp, CellVal.truthy,
        CellVal.trimE, Bind.bind, Except.bind, pure, Except.pure]
      split <;> (try split) <;> (try split) <;>
        first | exact ⟨_, rfl⟩ | simp_all

/-- The conversion-time check succeeds on non-numeric cells. -/
theorem checkTime_total {lib : DateLib} {now : PDate} {row : Row}
    {mode : Mode} (h : row.conversionTime.isNotNum = true) :
    ∃ is, Validator.checkTime lib now row mode = .ok is := by
  cases ht : row.conversionTime with
  | str s =>
    simp only [Validator.checkTime, ht]
    split <;> exact ⟨_, rfl⟩
  | num n => simp [ht, CellVal.isNotNum] at h
  | undef =>
    simp only [Validator.checkTime, ht]
    exact ⟨_, rfl⟩

/-- The conversion-value check succeeds on non-numeric cells. -/
theorem checkValue_total {row : Row}
    (h : row.conversionValue.isNotNum = true) :
    ∃ is, Validator.checkValue row = .ok is := by
  cases hv : row.conversionValue with
  | str s =>
    simp only [Validator.checkValue, hv]
    split <;> exact ⟨_, rfl⟩
  | num n => simp [hv, CellVal.isNotNum] at h
  | undef =>
    simp only [Validator.checkValue, hv]
    exact ⟨_, rfl⟩

/-- The currency check succeeds on non-numeric cells. -/
theorem checkCurrency_total {row : Row} {settings : Settings}
    (hv : row.conversionValue.isNotNum = true)
    (hc : row.currency.isNotNum = true) :
    ∃ is, Validator.checkCurrency row settings = .ok is := by
  cases hvv : row.conversionValue with
  | num n => simp [hvv, CellVal.isNotNum] at hv
  | undef =>
    simp only [Validator.checkCurrency, hvv]
    exact ⟨_, rfl⟩
  | str s =>
    cases hcc : row.currency with
    | num n => simp [hcc, CellVal.isNotNum] at hc
    | _ =>
      simp only [Validator.checkCurrency, hvv, hcc, CellVal.truthy,
        CellVal.trimE, Bind.bind, Except.bind, pure, Except.pure]
      split <;> (try split) <;> (try split) <;>
        first | exact ⟨_, rfl⟩ | simp_all

/-- `validateRow` succeeds on every string-only row. -/
theorem validateRow_total {lib : DateLib} {now : PDate} {row : Row}
    {mode : Mode} {settings : Settings} (h : row.strOnly = true) :
    ∃ is, Validator.validateRow lib now row mode settings = .ok is := by
  simp only [Row.strOnly, Bool.and_eq_true] at h
  obtain ⟨⟨⟨⟨⟨⟨⟨⟨⟨hg, he⟩, hp⟩, hf⟩, hl⟩, hco⟩, hz⟩, ht⟩, hv⟩, hc⟩ := h
  obtain ⟨i2, h2⟩ := @checkTime_total lib now row mode ht
  obtain ⟨i3, h3⟩ := checkValue_total hv
  obtain ⟨i4, h4⟩ := @checkCurrency_total row settings hv hc
  cases mode with
  | standard =>
    obtain ⟨i1, h1⟩ := requireGclid_total hg
    refine ⟨i1 ++ (i2 ++ (i3 ++ i4)), ?_⟩
    simp [Validator.validateRow, h1, h2, h3, h4, Bind.bind, Except.bind,
      pure, Except.pure]
  | ec4l =>
    obtain ⟨i1, h1⟩ := requireEmailOrPhone_total he hp
    refine ⟨i1 ++ (i2 ++ (i3 ++ i4)), ?_⟩
    simp [Validator.validateRow, h1, h2, h3, h4, Bind.bind, Except.bind,
      pure, Except.pure]
  | facebook =>
    refine ⟨i2 ++ (i3 ++ i4), ?_⟩
    simp [Validator.validateRow, h2, h3, h4, Bind.bind, Except.bind,
      pure, Except.pure]

/-- `validateAll` succeeds on string-only rows. -/
theorem validateAll_total {lib : DateLib} {now : PDate} {mode : Mode}
    {settings : Settings} :
    ∀ (rows : List Row), (∀ row ∈ rows, row.strOnly = true) →
      ∀ (index : Nat) (seen : List String),
      ∃ is, Validator.validateAllGo lib now mode settings rows index seen =
        .ok is := by
  intro rows
  induction rows with
  | nil => intro _ index seen; exact ⟨[], rfl⟩
  | cons row rest ih =>
    intro h index seen
    obtain ⟨i1, h1⟩ := @validateRow_total lib now row mode settings
      (h row (List.mem_cons_self row rest))
    obtain ⟨i2, h2⟩ := ih (fun r hr => h r (List.mem_cons_of_mem row hr))
      (index + 1) (Validator.dupKey mode row :: seen)
    refine ⟨i1 ++ ((if Validator.dupKey mode row ∈ seen ∧
      Validator.dupKey mode row ≠ "-" then [Validator.dupWarn mode index]
      else []) ++ i2), ?_⟩
    simp [Validator.validateAllGo, h1, h2, Bind.bind, Except.bind, pure,
      Except.pure]

/-- The date rewrite succeeds on non-numeric cells. -/
theorem optimizeDate_total {lib : DateLib} {v : CellVal} {tz : String}
    (h : v.isNotNum = true) :
    ∃ res, Optimizer.optimizeDate lib v tz = .ok res := by
  cases v with
  | str s => exact ⟨_, rfl⟩
  | num n => simp [CellVal.isNotNum] at h
  | undef => exact ⟨_, rfl⟩

/-- The value step succeeds on non-numeric cells. -/
theorem optimizeValuePair_total {v : CellVal} (h : v.isNotNum = true) :
    ∃ res, Optimizer.optimizeValuePair v = .ok res := by
  cases v with
  | str s =>
    simp only [Optimizer.optimizeValuePair, Optimizer.optimizeValue,
      CellVal.truthy, Bind.bind, Except.bind, pure, Except.pure]
    split <;> exact ⟨_, rfl⟩
  | num n => simp [CellVal.isNotNum] at h
  | undef => exact ⟨_, rfl⟩

/-- The currency rewrite succeeds on non-numeric cells. -/
theorem optimizeCurrency_total {v : CellVal} {dc : String}
    (h : v.isNotNum = true) :
    ∃ res, Optimizer.optimizeCurrency v dc = .ok res := by
  cases v with
  | str s =>
    simp only [Optimizer.optimizeCurrency]
    split <;> exact ⟨_, rfl⟩
  | num n => simp [CellVal.isNotNum] at h
  | undef => exact ⟨_, rfl⟩

/-- The hashing step succeeds on non-numeric cells. -/
theorem hashStep_total {digest : String → List Nat} {v : CellVal}
    {kind : Hasher.HashKind} {tag : List ChangeTag}
    (h : v.isNotNum = true) :
    ∃ res, Optimizer.hashStep digest v kind tag = .ok res := by
  cases v with
  | str s =>
    simp only [Optimizer.hashStep, CellVal.truthy, isAlreadyHashedE_str,
      Hasher.hashField, Bind.bind, Except.bind, pure, Except.pure]
    split <;> (try split) <;> first | exact ⟨_, rfl⟩ | simp_all
  | num n => simp [CellVal.isNotNum] at h
  | undef => exact ⟨_, rfl⟩

/-- The last-name step succeeds on non-numeric cells. -/
theorem lastNameStep_total {digest : String → List Nat} {fn ln : CellVal}
    (hf : fn.isNotNum = true) (hl : ln.isNotNum = true) :
    ∃ res, Optimizer.lastNameStep digest fn ln = .ok res := by
  have hguard : ∃ b, Optimizer.repeatGuardStep fn = .ok b := by
    cases fn with
    | str s =>
      simp only [Optimizer.repeatGuardStep, CellVal.truthy,
        isAlreadyHashedE_str]
      split <;> exact ⟨_, rfl⟩
    | num n => simp [CellVal.isNotNum] at hf
    | undef => exact ⟨_, rfl⟩
  obtain ⟨b, hb⟩ := hguard
  cases ln with
  | str s =>
    simp only [Optimizer.lastNameStep, CellVal.truthy, isAlreadyHashedE_str,
      Hasher.hashField, hb, Bind.bind, Except.bind, pure, Except.pure]
    split <;> (try split) <;> first | exact ⟨_, rfl⟩ | simp_all
  | num n => simp [CellVal.isNotNum] at hl
  | undef => exact ⟨_, rfl⟩

/-- The trim-in-place step succeeds on non-numeric cells. -/
theorem trimInPlace_total {v : CellVal} (h : v.isNotNum = true) :
    ∃ res, Optimizer.trimInPlace v = .ok res := by
  cases v with
  | str s =>
    simp only [Optimizer.trimInPlace, CellVal.truthy, CellVal.trimE,
      Bind.bind, Except.bind, pure, Except.pure]
    split <;> exact ⟨_, rfl⟩
  | num n => simp [CellVal.isNotNum] at h
  | undef => exact ⟨_, rfl⟩

/-- `optimizeRow` succeeds on every string-only row. -/
theorem optimizeRow_total {digest : String → List Nat} {lib : DateLib}
    {row : Row} {mode : Mode} {settings : Settings}
    (h : row.strOnly = true) :
    ∃ out, Optimizer.optimizeRow digest lib row mode settings = .ok out := by
  simp only [Row.strOnly, Bool.and_eq_true] at h
  obtain ⟨⟨⟨⟨⟨⟨⟨⟨⟨hg, he⟩, hp⟩, hf⟩, hl⟩, hco⟩, hz⟩, ht⟩, hv⟩, hc⟩ := h
  obtain ⟨dres, hd⟩ := @optimizeDate_total lib row.conversionTime
    settings.timezone ht
  obtain ⟨vp, hvp⟩ := optimizeValuePair_total hv
  obtain ⟨cres, hcr⟩ := @optimizeCurrency_total row.currency
    settings.defaultCurrency hc
  cases mode with
  | ec4l =>
    obtain ⟨ep, hep⟩ := @hashStep_total digest row.email
      Hasher.HashKind.email [ChangeTag.emailHashed] he
    obtain ⟨pp, hpp⟩ := @hashStep_total digest row.phone
      Hasher.HashKind.phone [ChangeTag.phoneHashed] hp
    obtain ⟨fp, hfp⟩ := @hashStep_total digest row.firstName
      Hasher.HashKind.firstName [ChangeTag.nameHashed] hf
    obtain ⟨lp, hlp⟩ := @lastNameStep_total digest row.firstName
      row.lastName hf hl
    obtain ⟨co, hcot⟩ := trimInPlace_total hco
    obtain ⟨zi, hzit⟩ := trimInPlace_total hz
    simp only [Optimizer.optimizeRow, hd, hvp, hcr, hep, hpp, hfp, hlp,
      hcot, hzit, Bind.bind, Except.bind, pure, Except.pure, reduceIte]
    exact ⟨_, rfl⟩
  | standard =>
    simp only [Optimizer.optimizeRow, hd, hvp, hcr, Bind.bind, Except.bind,
      pure, Except.pure, reduceIte]
    exact ⟨_, rfl⟩
  | facebook =>
    simp only [Optimizer.optimizeRow, hd, hvp, hcr, Bind.bind, Except.bind,
      pure, Except.pure, reduceIte]
    exact ⟨_, rfl⟩

/-- `optimizeAll` succeeds on string-only rows and returns one optimized
row per input row, regardless of any validation outcome. -/
theorem optimizeAll_total {digest : String → List Nat} {lib : DateLib}
    {mode : Mode} {settings : Settings} :
    ∀ (rows : List Row), (∀ row ∈ rows, row.strOnly = true) →
      ∃ out, Optimizer.optimizeAll digest lib rows mode settings = .ok out ∧
        out.1.length = rows.length := by
  intro rows
  induction rows with
  | nil => exact fun _ => ⟨([], []), rfl, rfl⟩
  | cons row rest ih =>
    intro h
    obtain ⟨⟨d1, c1⟩, h1⟩ := @optimizeRow_total digest lib row mode
      settings (h row (List.mem_cons_self row rest))
    obtain ⟨⟨ds, chs⟩, h2, hlen⟩ :=
      ih (fun r hr => h r (List.mem_cons_of_mem row hr))
    refine ⟨(d1 :: ds, c1.map (fun t => (t, row.rowIndex)) ++ chs), ?_,
      by simp [hlen]⟩
    simp [Optimizer.optimizeAll, h1, h2, Bind.bind, Except.bind, pure,
      Except.pure]

/-- The claim-side drop predicate is the negation of the source filter. -/
theorem valueBlank_eq_not_keepRow (row : Row) :
    valueBlankZeroOrNonPositive row = !App.keepRow row := by
  unfold valueBlankZeroOrNonPositive App.keepRow
  cases hcv : row.conversionValue with
  | undef => rfl
  | num n =>
    cases hp : parseFloatJS ⟨(CellVal.num n).toStr.data.filter
      App.keepNumChar⟩ <;> simp [hp]
  | str s =>
    by_cases hs : s = ""
    · subst hs; rfl
    · split <;> try simp_all
      cases hp : parseFloatJS ⟨List.filter App.keepNumChar
        (CellVal.str s).toStr.data⟩ <;> simp [hp]

/-- **C8** (error handling): on string-only input data the orchestrator
`processData` succeeds and sequences as claimed: rows whose conversion
value is blank, zero, or not parseable as a positive number are silently
dropped from the mapped data before validation; validation runs on the
filtered mapped rows; every remaining row is optimized regardless of the
validation outcome (one optimized row per mapped row); and the export set
is non-empty only if `canExport` holds and the required
conversion-name/event-name setting is non-blank, while any error or a
blank name yields an empty export set with the validation report and the
optimized preview still produced. -/
theorem orchestrator_sequencing (digest : String → List Nat) (lib : DateLib)
    (now : PDate) (data : List RawRow) (mappings : Mappings) (mode : Mode)
    (settings : Settings) (hdata : ∀ r ∈ data, rawStrOnly r = true) :
    ∃ res, App.processCore digest lib now data mappings mode settings =
        .ok res ∧
      res.mapped = (applyMappings data mappings).filter App.keepRow ∧
      (∀ row ∈ applyMappings data mappings,
        valueBlankZeroOrNonPositive row = true → row ∉ res.mapped) ∧
      Validator.validateAll lib now res.mapped mode settings =
        .ok res.validation ∧
      res.optimizedData.length = res.mapped.length ∧
      (res.exportData ≠ [] →
        res.validation.canExport = true ∧
        App.nameValid mode settings = true) ∧
      ((res.validation.canExport = false ∨
        App.nameValid mode settings = false) → res.exportData = []) := by
  have hm0 := @applyMappings_strOnly data mappings hdata
  have hm := filter_strOnly hm0
  obtain ⟨is0, his⟩ := @validateAll_total lib now mode settings
    ((applyMappings data mappings).filter App.keepRow) hm 0 []
  have hva : ∃ v, Validator.validateAll lib now
      ((applyMappings data mappings).filter App.keepRow) mode settings =
      Except.ok v := by
    simp only [Validator.validateAll, his, Bind.bind, Except.bind, pure,
      Except.pure]
    exact ⟨_, rfl⟩
  obtain ⟨vres0, hva⟩ := hva
  obtain ⟨⟨ods, chs⟩, hoa, hlen⟩ := @optimizeAll_total digest lib mode
    settings ((applyMappings data mappings).filter App.keepRow) hm
  refine ⟨⟨(applyMappings data mappings).filter App.keepRow, vres0, ods, chs,
    if vres0.canExport && App.nameValid mode settings then
      Optimizer.transformToGoogleAdsFormat ods mode
        (match mode with
         | Mode.facebook => settings.eventName
         | _ => settings.conversionName)
    else []⟩, ?_, rfl, ?_, hva, hlen, ?_, ?_⟩
  · simp only [App.processCore, hva, hoa, Bind.bind, Except.bind, pure,
      Except.pure]
    cases mode <;> rfl
  · intro row hrow hblank hmem
    rw [valueBlank_eq_not_keepRow] at hblank
    have hk : App.keepRow row = true := (List.mem_filter.mp hmem).2
    simp [hk] at hblank
  · intro hne
    by_cases hce : (vres0.canExport && App.nameValid mode settings) = true
    · simpa [Bool.and_eq_true] using hce
    · exact absurd (if_neg hce) hne
  · intro hor
    rcases hor with h | h <;> simp_all

/-- Witness for C8 at a concrete run: one string-only Standard-mode raw
row, the identity-like mappings, the Lead settings, and the zero digest. -/
theorem orchestrator_sequencing_witness :
    (∀ r ∈ [rawStd], rawStrOnly r = true) ∧
    ∃ res, App.processCore digestZero jsDateLib nowFix [rawStd] mapStd
        Mode.standard settingsLead = .ok res ∧
      res.mapped = (applyMappings [rawStd] mapStd).filter App.keepRow ∧
      (∀ row ∈ applyMappings [rawStd] mapStd,
        valueBlankZeroOrNonPositive row = true → row ∉ res.mapped) ∧
      Validator.validateAll jsDateLib nowFix res.mapped Mode.standard
        settingsLead = .ok res.validation ∧
      res.optimizedData.length = res.mapped.length ∧
      (res.exportData ≠ [] →
        res.validation.canExport = true ∧
        App.nameValid Mode.standard settingsLead = true) ∧
      ((res.validation.canExport = false ∨
        App.nameValid Mode.standard settingsLead = false) →
        res.exportData = []) :=
  ⟨by decide, orchestrator_sequencing digestZero jsDateLib nowFix [rawStd]
    mapStd Mode.standard settingsLead (by decide)⟩

/-- `validateAll` on the Standard-scenario mapped row, for an arbitrary
current date: no errors ever; one stale-date warning exactly when the
conversion date lies more than 90 days before `now`. -/
theorem validateAll_rowStdC (now : PDate) :
    Validator.validateAll jsDateLib now [rowStdC] Mode.standard
      settingsLead = .ok (if differenceInDays now ⟨2024, 1, 15⟩ > 90 then
        vresStdWarn else vresStdClean) := by
  have hp : tryParseDate jsDateLib "2024-01-15" = some ⟨2024, 1, 15⟩ := by
    decide
  have hvd : Validator.validateDate jsDateLib now "2024-01-15" 1
      Mode.standard = if differenceInDays now ⟨2024, 1, 15⟩ > 90 then
        [⟨.warning, .gclidTooOld, 1, .conversionTime⟩] else [] := by
    simp [Validator.validateDate, hp]
  have hct : Validator.checkTime jsDateLib now rowStdC Mode.standard =
      .ok (if differenceInDays now ⟨2024, 1, 15⟩ > 90 then
        [⟨.warning, .gclidTooOld, 1, .conversionTime⟩] else []) := by
    have h0 : Validator.checkTime jsDateLib now rowStdC Mode.standard =
        .ok (Validator.validateDate jsDateLib now "2024-01-15" 1
          Mode.standard) := rfl
    rw [h0, hvd]
  have hg : Validator.requireGclid rowStdC = .ok [] := by decide
  have h3 : Validator.checkValue rowStdC = .ok [] := by decide
  have h4 : Validator.checkCurrency rowStdC settingsLead = .ok [] := by
    decide
  have hvr : Validator.validateRow jsDateLib now rowStdC Mode.standard
      settingsLead = .ok (if differenceInDays now ⟨2024, 1, 15⟩ > 90 then
        [⟨.warning, .gclidTooOld, 1, .conversionTime⟩] else []) := by
    simp [Validator.validateRow, hg, hct, h3, h4, Bind.bind, Except.bind,
      pure, Except.pure]
  have hgo : Validator.validateAllGo jsDateLib now Mode.standard
      settingsLead [rowStdC] 0 [] =
      .ok (if differenceInDays now ⟨2024, 1, 15⟩ > 90 then
        [⟨.warning, .gclidTooOld, 1, .conversionTime⟩] else []) := by
    simp [Validator.validateAllGo, hvr, Bind.bind, Except.bind, pure,
      Except.pure]
  by_cases hnow : differenceInDays now ⟨2024, 1, 15⟩ > 90
  · rw [if_pos hnow]
    rw [if_pos hnow] at hgo
    simp only [Validator.validateAll, hgo, Bind.bind, Except.bind, pure,
      Except.pure]
    rfl
  · rw [if_neg hnow]
    rw [if_neg hnow] at hgo
    simp only [Validator.validateAll, hgo, Bind.bind, Except.bind, pure,
      Except.pure]
    rfl

/-- C1 counterexample: in the Standard scenario the pipeline emits four
change records — time defaulted, timezone applied, date reformatted, and
value cleaned — not just the two (time defaulted, value cleaned) the claim
lists. -/
theorem standard_scenario_extra_change_tags :
    (App.processCore digestZero jsDateLib nowFix [rawStd] mapStd
      Mode.standard settingsLead).map (fun r => r.changes.map Prod.fst) =
      .ok [ChangeTag.timeAdded, ChangeTag.timezoneApplied,
        ChangeTag.dateReformatted, ChangeTag.valueFixed] ∧
    (App.processCore digestZero jsDateLib nowFix [rawStd] mapStd
      Mode.standard settingsLead).map (fun r => r.changes.map Prod.fst) ≠
      .ok [ChangeTag.timeAdded, ChangeTag.valueFixed] :=
  ⟨by decide, by decide⟩

/-- **C1** (amended, functional correctness): for every digest and every
current date, the Standard-scenario run maps, validates and optimizes the
row `{gclid: "abc123", conversionTime: "2024-01-15",
conversionValue: "$50.00"}` with settings `{conversionName: "Lead",
timezone: "+00:00", defaultCurrency: "USD"}` into zero errors, an
exportable dataset with exactly the claimed export row, and the four
change records time-added, timezone-applied, date-reformatted and
value-fixed on row 1 (two more than the claim lists). -/
theorem standard_scenario_pipeline (digest : String → List Nat)
    (now : PDate) :
    ∃ res, App.processCore digest jsDateLib now [rawStd] mapStd
        Mode.standard settingsLead = .ok res ∧
      res.validation.summary.errors = 0 ∧
      res.validation.canExport = true ∧
      res.exportData = exportStd ∧
      res.changes = changesStd := by
  have hfilter : (applyMappings [rawStd] mapStd).filter App.keepRow =
      [rowStdC] := by decide
  have hva := validateAll_rowStdC now
  by_cases hnow : differenceInDays now ⟨2024, 1, 15⟩ > 90
  · rw [if_pos hnow] at hva
    refine ⟨⟨[rowStdC], vresStdWarn, [optRowStd], changesStd, exportStd⟩,
      ?_, by decide, by decide, rfl, rfl⟩
    simp only [App.processCore, hfilter, hva, Bind.bind, Except.bind,
      pure, Except.pure]
    rfl
  · rw [if_neg hnow] at hva
    refine ⟨⟨[rowStdC], vresStdClean, [optRowStd], changesStd, exportStd⟩,
      ?_, by decide, by decide, rfl, rfl⟩
    simp only [App.processCore, hfilter, hva, Bind.bind, Except.bind,
      pure, Except.pure]
    rfl

/-- Decimal digit characters are digit characters. -/
theorem digitChar_isDigit : ∀ d < 10, (digitChar d).isDigit = true := by
  decide

/-- The value of a digit character is at most 9. -/
theorem digitVal_le {c : Char} (h : c.isDigit = true) : digitVal c ≤ 9 := by
  simp only [Char.isDigit, Bool.and_eq_true, decide_eq_true_eq] at h
  have h2 : c.val.toNat ≤ 57 := h.2
  simp only [digitVal, Char.toNat]
  omega

/-- Every character the decimal printer emits is a digit. -/
theorem natDigitsAux_digits :
    ∀ fuel n c, c ∈ natDigitsAux fuel n → c.isDigit = true := by
  intro fuel
  induction fuel with
  | zero => intro n c h; simp [natDigitsAux] at h
  | succ f ih =>
    intro n c h
    simp only [natDigitsAux] at h
    split at h
    · simp at h
      subst h
      exact digitChar_isDigit n (by omega)
    · rw [List.mem_append] at h
      rcases h with h | h
      · exact ih _ _ h
      · simp at h
        subst h
        exact digitChar_isDigit _ (Nat.mod_lt n (by omega))

/-- The decimal printer emits at most `fuel` characters on inputs below
`10 ^ fuel`. -/
theorem natDigitsAux_length :
    ∀ fuel n, n < 10 ^ fuel → (natDigitsAux fuel n).length ≤ fuel := by
  intro fuel
  induction fuel with
  | zero => intro n h; simp [natDigitsAux]
  | succ f ih =>
    intro n h
    simp only [natDigitsAux]
    by_cases hn : n < 10
    · simp [hn]
    · rw [if_neg hn, List.length_append]
      have hdiv : n / 10 < 10 ^ f := by
        rw [pow_succ'] at h
        exact Nat.div_lt_of_lt_mul h
      have := ih (n / 10) hdiv
      simp only [List.length_cons, List.length_nil]
      omega

/-- The decimal printer does not depend on the fuel, as long as it is
positive and sufficient. -/
theorem natDigitsAux_fuel :
    ∀ n f1 f2, n < 10 ^ f1 → n < 10 ^ f2 → 0 < f1 → 0 < f2 →
      natDigitsAux f1 n = natDigitsAux f2 n := by
  intro n
  induction n using Nat.strong_induction_on with
  | _ n ih =>
    intro f1 f2 hb1 hb2 hp1 hp2
    obtain ⟨g1, rfl⟩ : ∃ g, f1 = g + 1 := ⟨f1 - 1, by omega⟩
    obtain ⟨g2, rfl⟩ : ∃ g, f2 = g + 1 := ⟨f2 - 1, by omega⟩
    simp only [natDigitsAux]
    by_cases hn : n < 10
    · simp [hn]
    · rw [if_neg hn, if_neg hn]
      have hg1 : 0 < g1 := by
        rcases Nat.eq_zero_or_pos g1 with rfl | h
        · norm_num at hb1; omega
        · exact h
      have hg2 : 0 < g2 := by
        rcases Nat.eq_zero_or_pos g2 with rfl | h
        · norm_num at hb2; omega
        · exact h
      have hb1' : n / 10 < 10 ^ g1 := by
        rw [pow_succ'] at hb1
        exact Nat.div_lt_of_lt_mul hb1
      have hb2' : n / 10 < 10 ^ g2 := by
        rw [pow_succ'] at hb2
        exact Nat.div_lt_of_lt_mul hb2
      rw [ih (n / 10) (Nat.div_lt_self (by omega) (by omega)) g1 g2 hb1'
        hb2' hg1 hg2]

/-- `natDigits` with its default fuel agrees with fuel `k` whenever `k`
suffices. -/
theorem natDigits_eq_aux (k n : Nat) (hk : 0 < k) (h : n < 10 ^ k) :
    natDigits n = natDigitsAux k n := by
  unfold natDigits
  refine natDigitsAux_fuel n (n + 1) k ?_ h (by omega) hk
  calc n < 10 ^ n := Nat.lt_pow_self (by norm_num) n
  _ ≤ 10 ^ (n + 1) := Nat.pow_le_pow_right (by norm_num) (Nat.le_succ n)

/-- `padStart(w, '0')` of a number below `10 ^ w` has exactly `w`
characters, all digits. -/
theorem padNat_shape (w n : Nat) (hw : 0 < w) (h : n < 10 ^ w) :
    (padNat w n).data.length = w ∧
    ∀ c ∈ (padNat w n).data, c.isDigit = true := by
  have hlen : (natDigits n).length ≤ w := by
    rw [natDigits_eq_aux w n hw h]
    exact natDigitsAux_length w n h
  constructor
  · simp only [padNat, List.length_append, List.length_replicate]
    omega
  · intro c hc
    simp only [padNat, List.mem_append, List.mem_replicate] at hc
    rcases hc with ⟨_, rfl⟩ | hc
    · decide
    · unfold natDigits at hc
      exact natDigitsAux_digits _ _ _ hc

/-- Two-character zero-padded rendering of a number up to 99. -/
theorem padNat2_shape (n : Nat) (h : n ≤ 99) :
    ∃ a b, (padNat 2 n).data = [a, b] ∧ a.isDigit = true ∧
      b.isDigit = true := by
  obtain ⟨hl, hd⟩ := padNat_shape 2 n (by omega) (by norm_num; omega)
  obtain ⟨a, b, hab⟩ := List.length_eq_two.mp hl
  exact ⟨a, b, hab, hd a (by rw [hab]; simp), hd b (by rw [hab]; simp)⟩

/-- A list of length four is an explicit four-element list. -/
theorem exists_four {l : List Char} (h : l.length = 4) :
    ∃ a b c d, l = [a, b, c, d] := by
  match l, h with
  | [a, b, c, d], _ => exact ⟨a, b, c, d, rfl⟩

/-- Four-character zero-padded rendering of a number up to 9999. -/
theorem padNat4_shape (n : Nat) (h : n ≤ 9999) :
    ∃ a b c d, (padNat 4 n).data = [a, b, c, d] ∧ a.isDigit = true ∧
      b.isDigit = true ∧ c.isDigit = true ∧ d.isDigit = true := by
  obtain ⟨hl, hd⟩ := padNat_shape 4 n (by omega) (by norm_num; omega)
  obtain ⟨a, b, c, d, habcd⟩ := exists_four hl
  refine ⟨a, b, c, d, habcd, ?_, ?_, ?_, ?_⟩ <;>
    exact hd _ (by rw [habcd]; simp)

/-- Digit characters are not JavaScript whitespace. -/
theorem isDigit_not_ws {c : Char} (h : c.isDigit = true) :
    jsWhitespace c = false := by
  by_cases hw : jsWhitespace c = true
  · simp only [jsWhitespace, Bool.or_eq_true, decide_eq_true_eq] at hw
    rcases hw with ((rfl | rfl) | rfl) | rfl <;> exact absurd h (by decide)
  · exact Bool.eq_false_iff.mpr hw

/-- The head of a `dropWhile` residue does not satisfy the predicate. -/
theorem dropWhile_head_false {p : Char → Bool} :
    ∀ (l : List Char) (c : Char), (l.dropWhile p).head? = some c →
      p c = false := by
  intro l
  induction l with
  | nil => intro c h; simp at h
  | cons a t ih =>
    intro c h
    rw [List.dropWhile_cons] at h
    by_cases hp : p a = true
    · rw [if_pos hp] at h
      exact ih c h
    · rw [if_neg hp] at h
      simp at h
      subst h
      exact Bool.eq_false_iff.mpr hp

/-- `dropWhile` is the identity when the head does not satisfy the
predicate. -/
theorem dropWhile_id_of_head {p : Char → Bool} (l : List Char)
    (h : ∀ c, l.head? = some c → p c = false) : l.dropWhile p = l := by
  cases l with
  | nil => rfl
  | cons a t =>
    rw [List.dropWhile_cons, h a rfl]
    simp

/-- A non-empty `dropWhile` residue keeps the last element. -/
theorem getLast?_dropWhile {p : Char → Bool} :
    ∀ l : List Char, l.dropWhile p ≠ [] →
      (l.dropWhile p).getLast? = l.getLast? := by
  intro l
  induction l with
  | nil => intro h; simp at h
  | cons a t ih =>
    intro h
    rw [List.dropWhile_cons] at h ⊢
    by_cases hp : p a = true
    · rw [if_pos hp] at h ⊢
      have htne : t ≠ [] := by
        intro ht
        subst ht
        simp at h
      rw [ih h]
      cases t with
      | nil => exact absurd rfl htne
      | cons b t2 => rw [List.getLast?_cons_cons]
    · rw [if_neg hp]
  
/-- JavaScript `trim` is idempotent at the character level. -/
theorem trimChars_idem (l : List Char) :
    trimChars (trimChars l) = trimChars l := by
  by_cases hB : (l.dropWhile jsWhitespace).reverse.dropWhile jsWhitespace
      = []
  · have h1 : trimChars l = [] := by
      unfold trimChars
      rw [hB]
      rfl
    rw [h1]
    rfl
  · have hA : l.dropWhile jsWhitespace ≠ [] := by
      intro h
      apply hB
      rw [h]
      rfl
    obtain ⟨a, ha⟩ : ∃ a, (l.dropWhile jsWhitespace).head? = some a := by
      cases hA2 : l.dropWhile jsWhitespace with
      | nil => exact absurd hA2 hA
      | cons x t => exact ⟨x, rfl⟩
    have hanw : jsWhitespace a = false := dropWhile_head_false l a ha
    have hlastB : ((l.dropWhile jsWhitespace).reverse.dropWhile
        jsWhitespace).getLast? = some a := by
      rw [getLast?_dropWhile _ hB, List.getLast?_reverse]
      exact ha
    have e1 : trimChars l = ((l.dropWhile jsWhitespace).reverse.dropWhile
        jsWhitespace).reverse := rfl
    rw [e1]
    unfold trimChars
    rw [dropWhile_id_of_head
      ((l.dropWhile jsWhitespace).reverse.dropWhile jsWhitespace).reverse
      (fun c hc => by
        rw [List.head?_reverse, hlastB] at hc
        cases hc
        exact hanw)]
    rw [List.reverse_reverse,
      dropWhile_id_of_head
        ((l.dropWhile jsWhitespace).reverse.dropWhile jsWhitespace)
        (fun c hc => dropWhile_head_false _ c hc)]

/-- JavaScript `trim` is idempotent. -/
theorem jsTrim_idem (s : String) : jsTrim (jsTrim s) = jsTrim s := by
  apply String.ext
  show trimChars (trimChars s.data) = trimChars s.data
  exact trimChars_idem s.data

/-- Trimming is the identity on a list with non-whitespace first and last
characters. -/
theorem trimChars_cons_ends (a : Char) (t : List Char) (b : Char)
    (ha : jsWhitespace a = false) (hb : jsWhitespace b = false) :
    trimChars (a :: (t ++ [b])) = a :: (t ++ [b]) := by
  unfold trimChars
  have h1 : (a :: (t ++ [b])).dropWhile jsWhitespace = a :: (t ++ [b]) := by
    rw [List.dropWhile_cons, ha]
    simp
  have hrev : (a :: (t ++ [b])).reverse = b :: (t.reverse ++ [a]) := by
    simp
  rw [h1, hrev]
  have h2 : (b :: (t.reverse ++ [a])).dropWhile jsWhitespace =
      b :: (t.reverse ++ [a]) := by
    rw [List.dropWhile_cons, hb]
    simp
  rw [h2, ← hrev, List.reverse_reverse]

/-- The shape of a list accepted by the offset test. -/
theorem isTzChars_shape {l : List Char} (h : isTzChars l = true) :
    ∃ pm a b d e, l = [pm, a, b, ':', d, e] ∧ (pm = '+' ∨ pm = '-') ∧
      a.isDigit = true ∧ b.isDigit = true ∧ d.isDigit = true ∧
      e.isDigit = true := by
  rcases l with _ | ⟨pm, _ | ⟨a, _ | ⟨b, _ | ⟨c, _ | ⟨d, _ | ⟨e,
    _ | ⟨f, t⟩⟩⟩⟩⟩⟩⟩ <;> try exact Bool.noConfusion h
  simp only [isTzChars, Bool.and_eq_true, Bool.or_eq_true,
    decide_eq_true_eq] at h
  obtain ⟨⟨⟨⟨⟨hpm, ha⟩, hb⟩, hc⟩, hd⟩, he⟩ := h
  subst hc
  exact ⟨pm, a, b, d, e, rfl, hpm, ha, hb, hd, he⟩

/-- The offset-suffix match only returns offset-shaped lists. -/
theorem tzSuffix_isTz {cs t : List Char} (h : tzSuffix cs = some t) :
    isTzChars t = true := by
  simp only [tzSuffix] at h
  split at h
  · replace h := Option.some.inj h
    subst h
    next hcond =>
      simp only [Bool.and_eq_true] at hcond
      exact hcond.2
  · exact Option.noConfusion h

/-- The components read by the anchored time match are at most 99. -/
theorem timeAt_bounds :
    ∀ (l : List Char) (hh mi : Nat) (ssO : Option Nat),
      timeAt l = some (hh, mi, ssO) →
      hh ≤ 99 ∧ mi ≤ 99 ∧ ∀ x, ssO = some x → x ≤ 99 := by
  intro l hh mi ssO h
  rcases l with _ | ⟨c1, _ | ⟨c2, _ | ⟨c3, _ | ⟨c4, _ | ⟨c5, rest⟩⟩⟩⟩⟩ <;>
    try exact Option.noConfusion h
  simp only [timeAt] at h
  split at h
  · next hcond =>
    simp only [Bool.and_eq_true, decide_eq_true_eq] at hcond
    obtain ⟨⟨⟨⟨h1, h2⟩, h3⟩, h4⟩, h5⟩ := hcond
    replace h := Option.some.inj h
    rw [Prod.mk.injEq, Prod.mk.injEq] at h
    obtain ⟨hhh, hmm, hss⟩ := h
    have hb1 := digitVal_le h1
    have hb2 := digitVal_le h2
    have hb4 := digitVal_le h4
    have hb5 := digitVal_le h5
    refine ⟨by omega, by omega, ?_⟩
    intro x hx
    subst hss
    split at hx
    · split at hx
      · next hd =>
        simp only [Bool.and_eq_true] at hd
        have hd1 := digitVal_le hd.1
        have hd2 := digitVal_le hd.2
        replace hx := Option.some.inj hx
        omega
      · exact Option.noConfusion hx
    · exact Option.noConfusion hx
  · exact Option.noConfusion h

/-- The components found by the time search are at most 99. -/
theorem findTime_bounds :
    ∀ (l : List Char) (hh mi : Nat) (ssO : Option Nat),
      findTime l = some (hh, mi, ssO) →
      hh ≤ 99 ∧ mi ≤ 99 ∧ ∀ x, ssO = some x → x ≤ 99 := by
  intro l
  induction l with
  | nil => intro hh mi ssO h; exact Option.noConfusion h
  | cons c rest ih =>
    intro hh mi ssO h
    simp only [findTime] at h
    cases hta : timeAt (c :: rest) with
    | some r =>
      rw [hta] at h
      replace h := Option.some.inj h
      subst h
      exact timeAt_bounds (c :: rest) _ _ _ hta
    | none =>
      rw [hta] at h
      exact ih hh mi ssO h

/-- The older canonicalizer's chosen time components are at most 99. -/
theorem hmsOfOld_bounds (cs : List Char) :
    (hmsOfOld cs).1 ≤ 99 ∧ (hmsOfOld cs).2.1 ≤ 99 ∧
      (hmsOfOld cs).2.2 ≤ 99 := by
  cases hft : findTime cs with
  | none =>
    have he : hmsOfOld cs = (12, 0, 0) := by
      unfold hmsOfOld
      rw [hft]
    rw [he]
    exact ⟨by decide, by decide, by decide⟩
  | some r =>
    obtain ⟨hh, mi, ssO⟩ := r
    obtain ⟨h1, h2, h3⟩ := findTime_bounds cs hh mi ssO hft
    have he : hmsOfOld cs = (hh, mi, ssO.getD 0) := by
      unfold hmsOfOld
      rw [hft]
    rw [he]
    refine ⟨h1, h2, ?_⟩
    cases ssO with
    | none => simp
    | some x => simpa using h3 x rfl

/-- The newer canonicalizer's chosen time components are at most 99,
given a well-bounded current time. -/
theorem hmsOfNew_bounds (now : PDate) (nowTime : Nat × Nat × Nat)
    (parsed : PDate) (cs : List Char) (hnt : nowTime.1 ≤ 99 ∧
      nowTime.2.1 ≤ 99 ∧ nowTime.2.2 ≤ 99) :
    (hmsOfNew now nowTime parsed cs).1 ≤ 99 ∧
      (hmsOfNew now nowTime parsed cs).2.1 ≤ 99 ∧
      (hmsOfNew now nowTime parsed cs).2.2 ≤ 99 := by
  cases hft : findTime cs with
  | none =>
    by_cases hpn : parsed = now
    · have he : hmsOfNew now nowTime parsed cs = nowTime := by
        unfold hmsOfNew
        rw [hft]
        simp [hpn]
      rw [he]
      exact hnt
    · have he : hmsOfNew now nowTime parsed cs = (23, 59, 59) := by
        unfold hmsOfNew
        rw [hft]
        simp [hpn]
      rw [he]
      exact ⟨by decide, by decide, by decide⟩
  | some r =>
    obtain ⟨hh, mi, ssO⟩ := r
    obtain ⟨h1, h2, h3⟩ := findTime_bounds cs hh mi ssO hft
    have he : hmsOfNew now nowTime parsed cs = (hh, mi, ssO.getD 0) := by
      unfold hmsOfNew
      rw [hft]
    rw [he]
    refine ⟨h1, h2, ?_⟩
    cases ssO with
    | none => simp
    | some x => simpa using h3 x rfl

/-- The canonicalizers' chosen timezone text is offset-shaped whenever the
default is. -/
theorem tzOf_isTz {dtz : String} (cs : List Char)
    (htz : isTzChars dtz.data = true) : isTzChars (tzOf dtz cs).data = true := by
  cases hsu : tzSuffix cs with
  | some t =>
    have he : tzOf dtz cs = ⟨t⟩ := by
      unfold tzOf
      rw [hsu]
      simp
    rw [he]
    exact tzSuffix_isTz hsu
  | none =>
    by_cases hz : endsWithZ cs = true
    · have he : tzOf dtz cs = "+00:00" := by
        unfold tzOf
        rw [hsu]
        simp [hz]
      rw [he]
      decide
    · have he : tzOf dtz cs = dtz := by
        unfold tzOf
        rw [hsu]
        simp [hz]
      rw [he]
      exact htz

/-- The canonical rendering `yyyy-MM-dd<sep>HH:mm:ss±HH:mm` built by the
date canonicalizers matches the target grammar, is its own trim, and is
non-empty. -/
theorem render_props (sepc : Char) (sepS : String) (hsd : sepS.data = [sepc])
    (p : PDate) (h m s2 : Nat) (tz : String) (hwf : p.wfB = true)
    (hh : h ≤ 99) (hm : m ≤ 99) (hs : s2 ≤ 99)
    (htz : isTzChars tz.data = true) :
    isTargetForm sepc (formatYmd p ++ sepS ++
      (padNat 2 h ++ ":" ++ padNat 2 m ++ ":" ++ padNat 2 s2) ++ tz).data
      = true ∧
    jsTrim (formatYmd p ++ sepS ++
      (padNat 2 h ++ ":" ++ padNat 2 m ++ ":" ++ padNat 2 s2) ++ tz) =
      formatYmd p ++ sepS ++
      (padNat 2 h ++ ":" ++ padNat 2 m ++ ":" ++ padNat 2 s2) ++ tz ∧
    formatYmd p ++ sepS ++
      (padNat 2 h ++ ":" ++ padNat 2 m ++ ":" ++ padNat 2 s2) ++ tz ≠
      "" := by
  simp only [PDate.wfB, Bool.and_eq_true, decide_eq_true_eq] at hwf
  obtain ⟨⟨hy, hmo⟩, hdy⟩ := hwf
  obtain ⟨y1, y2, y3, y4, hye, hy1, hy2, hy3, hy4⟩ :=
    padNat4_shape p.year hy
  obtain ⟨mo1, mo2, hmoe, hmo1, hmo2⟩ := padNat2_shape p.month hmo
  obtain ⟨d1, d2, hde, hd1, hd2⟩ := padNat2_shape p.day hdy
  obtain ⟨t1, t2, hte, ht1, ht2⟩ := padNat2_shape h hh
  obtain ⟨u1, u2, hue, hu1, hu2⟩ := padNat2_shape m hm
  obtain ⟨v1, v2, hve, hv1, hv2⟩ := padNat2_shape s2 hs
  obtain ⟨pm, a, b, d, e, htze, hpm, ha, hb, hdd, hee⟩ := isTzChars_shape htz
  have hdata : (formatYmd p ++ sepS ++
      (padNat 2 h ++ ":" ++ padNat 2 m ++ ":" ++ padNat 2 s2) ++ tz).data =
      [y1, y2, y3, y4, '-', mo1, mo2, '-', d1, d2, sepc, t1, t2, ':',
       u1, u2, ':', v1, v2, pm, a, b, ':', d, e] := by
    simp only [formatYmd, String.data_append, hye, hmoe, hde, hte, hue,
      hve, htze, hsd]
    rfl
  refine ⟨?_, ?_, ?_⟩
  · rw [hdata]
    rcases hpm with rfl | rfl <;>
      simp [isTargetForm, hy1, hy2, hy3, hy4, hmo1, hmo2, hd1, hd2, ht1,
        ht2, hu1, hu2, hv1, hv2, ha, hb, hdd, hee]
  · apply String.ext
    simp only [jsTrim]
    rw [hdata]
    exact trimChars_cons_ends y1 [y2, y3, y4, '-', mo1, mo2, '-', d1, d2,
      sepc, t1, t2, ':', u1, u2, ':', v1, v2, pm, a, b, ':', d] e
      (isDigit_not_ws hy1) (isDigit_not_ws hee)
  · intro hcon
    rw [hcon] at hdata
    exact List.noConfusion hdata

/-- The older canonicalizer returns a canonical-form input unchanged. -/
theorem optimizeDateS_on_canonical (lib : DateLib) (dtz v : String)
    (htr : jsTrim v = v) (hv : v ≠ "")
    (hform : isTargetForm ' ' v.data = true) :
    Optimizer.optimizeDateS lib v dtz = ⟨v, []⟩ := by
  simp [Optimizer.optimizeDateS, htr, hform, hv]

/-- The newer canonicalizer returns a canonical-form input unchanged. -/
theorem optimizeDateST_on_canonical (lib : DateLib) (now : PDate)
    (nowTime : Nat × Nat × Nat) (dtz v : String)
    (htr : jsTrim v = v) (hv : v ≠ "")
    (hform : isTargetForm 'T' v.data = true) :
    OptimizerT.optimizeDateS lib now nowTime v dtz = ⟨v, []⟩ := by
  simp [OptimizerT.optimizeDateS, htr, hform, hv]

/-- The value built by the older canonicalizer on a parsed date. -/
theorem optimizeDateS_some_value (lib : DateLib) (s dtz : String)
    (p : PDate) (h0 : ¬ jsTrim s = "")
    (h1 : ¬ isTargetForm ' ' (jsTrim s).data = true)
    (hp : tryParseDate lib (jsTrim s) = some p) :
    (Optimizer.optimizeDateS lib s dtz).value =
      formatYmd p ++ " " ++
      (padNat 2 (hmsOfOld (jsTrim s).data).1 ++ ":" ++
       padNat 2 (hmsOfOld (jsTrim s).data).2.1 ++ ":" ++
       padNat 2 (hmsOfOld (jsTrim s).data).2.2) ++
      tzOf dtz (jsTrim s).data := by
  simp only [Optimizer.optimizeDateS, if_neg h0, if_neg h1, hp]
  rfl

/-- The value built by the newer canonicalizer on a parsed date. -/
theorem optimizeDateST_some_value (lib : DateLib) (now : PDate)
    (nowTime : Nat × Nat × Nat) (s dtz : String)
    (p : PDate) (h0 : ¬ jsTrim s = "")
    (h1 : ¬ isTargetForm 'T' (jsTrim s).data = true)
    (hp : tryParseDate lib (jsTrim s) = some p) :
    (OptimizerT.optimizeDateS lib now nowTime s dtz).value =
      formatYmd p ++ "T" ++
      (padNat 2 (hmsOfNew now nowTime p (jsTrim s).data).1 ++ ":" ++
       padNat 2 (hmsOfNew now nowTime p (jsTrim s).data).2.1 ++ ":" ++
       padNat 2 (hmsOfNew now nowTime p (jsTrim s).data).2.2) ++
      tzOf dtz (jsTrim s).data := by
  simp only [OptimizerT.optimizeDateS, if_neg h0, if_neg h1, hp]
  rfl

/-- Idempotence of the older date canonicalizer on the value field. -/
theorem optimizeDateS_idem_old (lib : DateLib) (s dtz : String)
    (htz : isTzChars dtz.data = true) (hwf : parseWfB lib s = true) :
    Optimizer.optimizeDateS lib (Optimizer.optimizeDateS lib s dtz).value
      dtz = ⟨(Optimizer.optimizeDateS lib s dtz).value, []⟩ := by
  by_cases h0 : jsTrim s = ""
  · have hv : Optimizer.optimizeDateS lib s dtz = ⟨"", []⟩ := by
      simp [Optimizer.optimizeDateS, h0]
    rw [hv]
    rfl
  · by_cases h1 : isTargetForm ' ' (jsTrim s).data = true
    · have hv : Optimizer.optimizeDateS lib s dtz = ⟨jsTrim s, []⟩ := by
        simp [Optimizer.optimizeDateS, h0, h1]
      rw [hv]
      exact optimizeDateS_on_canonical lib dtz (jsTrim s) (jsTrim_idem s)
        h0 h1
    · cases hp : tryParseDate lib (jsTrim s) with
      | none =>
        have hv : Optimizer.optimizeDateS lib s dtz = ⟨s, []⟩ := by
          simp only [Optimizer.optimizeDateS, if_neg h0, if_neg h1, hp]
        rw [hv]
        exact hv
      | some p =>
        have hwfp : p.wfB = true := by
          unfold parseWfB at hwf
          rw [hp] at hwf
          exact hwf
        obtain ⟨hb1, hb2, hb3⟩ := hmsOfOld_bounds (jsTrim s).data
        have htzo := @tzOf_isTz dtz (jsTrim s).data htz
        obtain ⟨hform, htr, hne⟩ := render_props ' ' " " rfl p
          (hmsOfOld (jsTrim s).data).1 (hmsOfOld (jsTrim s).data).2.1
          (hmsOfOld (jsTrim s).data).2.2 (tzOf dtz (jsTrim s).data)
          hwfp hb1 hb2 hb3 htzo
        have hval := optimizeDateS_some_value lib s dtz p h0 h1 hp
        rw [hval]
        exact optimizeDateS_on_canonical lib dtz _ htr hne hform

/-- Idempotence of the newer date canonicalizer on the value field. -/
theorem optimizeDateS_idem_new (lib : DateLib) (now : PDate)
    (nowTime : Nat × Nat × Nat) (s dtz : String)
    (htz : isTzChars dtz.data = true) (hwf : parseWfB lib s = true)
    (hnt : nowTime.1 ≤ 99 ∧ nowTime.2.1 ≤ 99 ∧ nowTime.2.2 ≤ 99) :
    OptimizerT.optimizeDateS lib now nowTime
      (OptimizerT.optimizeDateS lib now nowTime s dtz).value dtz =
      ⟨(OptimizerT.optimizeDateS lib now nowTime s dtz).value, []⟩ := by
  by_cases h0 : jsTrim s = ""
  · have hv : OptimizerT.optimizeDateS lib now nowTime s dtz = ⟨"", []⟩ := by
      simp [OptimizerT.optimizeDateS, h0]
    rw [hv]
    rfl
  · by_cases h1 : isTargetForm 'T' (jsTrim s).data = true
    · have hv : OptimizerT.optimizeDateS lib now nowTime s dtz =
          ⟨jsTrim s, []⟩ := by
        simp [OptimizerT.optimizeDateS, h0, h1]
      rw [hv]
      exact optimizeDateST_on_canonical lib now nowTime dtz (jsTrim s)
        (jsTrim_idem s) h0 h1
    · cases hp : tryParseDate lib (jsTrim s) with
      | none =>
        have hv : OptimizerT.optimizeDateS lib now nowTime s dtz =
            ⟨s, []⟩ := by
          simp only [OptimizerT.optimizeDateS, if_neg h0, if_neg h1, hp]
        rw [hv]
        exact hv
      | some p =>
        have hwfp : p.wfB = true := by
          unfold parseWfB at hwf
          rw [hp] at hwf
          exact hwf
        obtain ⟨hb1, hb2, hb3⟩ := hmsOfNew_bounds now nowTime p
          (jsTrim s).data hnt
        have htzo := @tzOf_isTz dtz (jsTrim s).data htz
        obtain ⟨hform, htr, hne⟩ := render_props 'T' "T" rfl p
          (hmsOfNew now nowTime p (jsTrim s).data).1
          (hmsOfNew now nowTime p (jsTrim s).data).2.1
          (hmsOfNew now nowTime p (jsTrim s).data).2.2
          (tzOf dtz (jsTrim s).data) hwfp hb1 hb2 hb3 htzo
        have hval := optimizeDateST_some_value lib now nowTime s dtz p h0
          h1 hp
        rw [hval]
        exact optimizeDateST_on_canonical lib now nowTime dtz _ htr hne
          hform

/-- **C6** (algebraic): the date canonicalizer — in both the
space-separator/noon generation and the `T`-separator generation — is
idempotent on its value field: re-canonicalizing the returned value gives
the same value with no change tags; and an input already in the exact
target grammar is returned as-is (its trim) with no change tags. The
hypotheses delimit the documented domain: the default timezone is an
`±HH:mm` offset, every date the parser recognizes renders in 4+2+2
digits, and the current-time triple is two digits per component. -/
theorem canonicalize_idempotent (lib : DateLib) (s dtz : String)
    (now : PDate) (nowTime : Nat × Nat × Nat)
    (htz : isTzChars dtz.data = true) (hwf : parseWfB lib s = true)
    (hnt : nowTime.1 ≤ 99 ∧ nowTime.2.1 ≤ 99 ∧ nowTime.2.2 ≤ 99) :
    Optimizer.optimizeDateS lib (Optimizer.optimizeDateS lib s dtz).value
        dtz = ⟨(Optimizer.optimizeDateS lib s dtz).value, []⟩ ∧
    OptimizerT.optimizeDateS lib now nowTime
        (OptimizerT.optimizeDateS lib now nowTime s dtz).value dtz =
      ⟨(OptimizerT.optimizeDateS lib now nowTime s dtz).value, []⟩ ∧
    (isTargetForm ' ' (jsTrim s).data = true →
      Optimizer.optimizeDateS lib s dtz = ⟨jsTrim s, []⟩) ∧
    (isTargetForm 'T' (jsTrim s).data = true →
      OptimizerT.optimizeDateS lib now nowTime s dtz = ⟨jsTrim s, []⟩) := by
  refine ⟨optimizeDateS_idem_old lib s dtz htz hwf,
    optimizeDateS_idem_new lib now nowTime s dtz htz hwf hnt, ?_, ?_⟩
  · intro hform
    have hne : jsTrim s ≠ "" := by
      intro hz
      rw [hz] at hform
      exact absurd hform (by decide)
    simp [Optimizer.optimizeDateS, hne, hform]
  · intro hform
    have hne : jsTrim s ≠ "" := by
      intro hz
      rw [hz] at hform
      exact absurd hform (by decide)
    simp [OptimizerT.optimizeDateS, hne, hform]

/-- Witness for C6 at a concrete recognized date string, the `+00:00`
default offset, and a two-digit current time. -/
theorem canonicalize_idempotent_witness :
    (isTzChars ("+00:00" : String).data = true ∧
     parseWfB jsDateLib "2024-01-15" = true ∧
     ((12, 0, 0) : Nat × Nat × Nat).1 ≤ 99 ∧
     ((12, 0, 0) : Nat × Nat × Nat).2.1 ≤ 99 ∧
     ((12, 0, 0) : Nat × Nat × Nat).2.2 ≤ 99) ∧
    (Optimizer.optimizeDateS jsDateLib
        (Optimizer.optimizeDateS jsDateLib "2024-01-15" "+00:00").value
        "+00:00" =
      ⟨(Optimizer.optimizeDateS jsDateLib "2024-01-15" "+00:00").value,
       []⟩ ∧
     OptimizerT.optimizeDateS jsDateLib nowFix (12, 0, 0)
        (OptimizerT.optimizeDateS jsDateLib nowFix (12, 0, 0) "2024-01-15"
          "+00:00").value "+00:00" =
      ⟨(OptimizerT.optimizeDateS jsDateLib nowFix (12, 0, 0) "2024-01-15"
          "+00:00").value, []⟩ ∧
     (isTargetForm ' ' (jsTrim "2024-01-15").data = true →
       Optimizer.optimizeDateS jsDateLib "2024-01-15" "+00:00" =
         ⟨jsTrim "2024-01-15", []⟩) ∧
     (isTargetForm 'T' (jsTrim "2024-01-15").data = true →
       OptimizerT.optimizeDateS jsDateLib nowFix (12, 0, 0) "2024-01-15"
         "+00:00" = ⟨jsTrim "2024-01-15", []⟩)) :=
  ⟨⟨by decide, by decide, by decide, by decide, by decide⟩,
    canonicalize_idempotent jsDateLib "2024-01-15" "+00:00" nowFix
      (12, 0, 0) (by decide) (by decide) ⟨by decide, by decide, by decide⟩⟩

/-! ## Claim theorems -/

/-- C2: the claim says every pipeline function — `validateRow` in
particular — is total over rows whose cells are strings *or numbers* and
never throws. The code contradicts this: on a row whose conversion value is
the number `50` (as spreadsheet parsing delivers it, and as the
orchestrator's pre-filter happily admits), `validateRow` evaluates
`row.conversionValue.trim()` on a number and raises a `TypeError`, which
propagates through `validateAll` and aborts the whole `processData` run;
the newer `optimizeValue`, by contrast, accepts the same numeric cell
(`String(value)` before any string method), confirming the documented
intent that numeric cells be supported. -/
theorem validateRow_throws_on_numeric_value :
    Validator.validateRow jsDateLib nowFix rowNumericValue .standard
      { conversionName := "Lead" } = .error .typeError
    ∧ App.processCore digestZero jsDateLib nowFix
      [[("gclid", .str "abc123"), ("conversionTime", .str "2024-01-15"),
        ("conversionValue", .num 50)]]
      mapStd .standard { conversionName := "Lead" } = .error .typeError
    ∧ OptimizerT.optimizeValue (.num 50) = ⟨"50", []⟩ := by
  refine ⟨?_, ?_, ?_⟩ <;> decide

/-- C4: the claim says every issue produced for a row — including duplicate
warnings — carries the row's mapping-time `rowIndex`, even when rows were
filtered out between mapping and validation. The per-row issues do, but the
duplicate warning is keyed by `index + 1`, the row's position in the
*filtered* sequence handed to `validateAll`: here the first mapped row
(rowIndex 1) is dropped by the value pre-filter, the duplicate of the row
with `_rowIndex = 3` is flagged, and the warning carries `rowIndex = 2`
(its post-filter position), not 3. -/
theorem duplicate_warning_rowIndex_is_position :
    App.keepRow rowDropped = false
    ∧ [rowDropped, rowDupA, rowDupB].filter App.keepRow = [rowDupA, rowDupB]
    ∧ (Validator.validateAll jsDateLib nowFix
        ([rowDropped, rowDupA, rowDupB].filter App.keepRow)
        .standard settingsLead).map
        (fun r => r.issues.filter
          (fun i => i.message = .possibleDuplicate)) =
      .ok [⟨.warning, .possibleDuplicate, 2, .gclid⟩]
    ∧ rowDupB.rowIndex = 3 := by
  refine ⟨?_, ?_, ?_, ?_⟩ <;> decide

/-- C9 counterexample: the claim says the grouping separator is removed
exactly when a digit is followed by it and then *exactly* three digits. On
`"1,2345"` the comma is followed by four digits, so the claim's reading
leaves the text unchanged, but the code's lookahead `(?=\d{3})` only
requires at least three digits and removes the comma, producing
`"12345"`. -/
theorem cleanValue_grouping_not_exactly_three :
    Optimizer.optimizeValueS "1,2345" = ⟨"12345", [.valueFixed]⟩
    ∧ specCleanValueExact "1,2345" = "1,2345"
    ∧ ("12345" : String) ≠ "1,2345" := by
  refine ⟨?_, ?_, ?_⟩ <;> decide

/-- The code's three-digit lookahead agrees with "at least three digits
follow", phrased through the length of the following digit run. -/
theorem threeDigitsAhead_iff_takeWhile (cs : List Char) :
    Optimizer.threeDigitsAhead cs =
      decide (3 ≤ (cs.takeWhile Char.isDigit).length) := by
  match cs with
  | [] => rfl
  | [a] =>
    cases ha : a.isDigit <;>
      simp [Optimizer.threeDigitsAhead, List.takeWhile_cons, ha]
  | [a, b] =>
    cases ha : a.isDigit <;> cases hb : b.isDigit <;>
      simp [Optimizer.threeDigitsAhead, List.takeWhile_cons, ha, hb]
  | a :: b :: c :: rest =>
    cases ha : a.isDigit <;> cases hb : b.isDigit <;> cases hc : c.isDigit <;>
      simp [Optimizer.threeDigitsAhead, List.takeWhile_cons, ha, hb, hc]

/-- The code's grouping-separator replacement agrees with the amended
at-least-three-digits description. -/
theorem remGroupSep_eq_atLeast :
    ∀ cs : List Char, Optimizer.remGroupSep cs = specRemGroupSepAtLeast cs
  | [] => rfl
  | [_] => rfl
  | c1 :: c2 :: rest => by
    simp only [Optimizer.remGroupSep, specRemGroupSepAtLeast,
      threeDigitsAhead_iff_takeWhile rest]
    by_cases h :
        (c1.isDigit && ((c2 = ',' : Bool) || jsWhitespace c2) &&
          decide (3 ≤ (rest.takeWhile Char.isDigit).length)) = true
    · rw [if_pos h, if_pos h, remGroupSep_eq_atLeast rest]
    · rw [if_neg h, if_neg h, remGroupSep_eq_atLeast (c2 :: rest)]

/-- C9 as amended: the grouping separator (a `,` or whitespace after a
digit) is removed exactly when *at least* three digits follow; the comma
becomes a decimal point exactly when the cleaned text matches
`^\d+,\d{1,2}$`; currency symbols and remaining whitespace are stripped.
`"$1,234.50"` cleans to `"1234.50"`, `"1.234,56"` is not decimal-converted
(nor otherwise changed), the boundary case `"1,2345"` loses its comma to
the grouping rule, and `"1,23"` (only two digits after the comma) is
decimal-converted instead. -/
theorem cleanValue_characterization :
    (∀ cs : List Char,
      Optimizer.remGroupSep cs = specRemGroupSepAtLeast cs)
    ∧ (∀ s : String,
        Optimizer.optimizeValueS s =
          ⟨specCleanValueAtLeast s,
           if specCleanValueAtLeast s ≠ jsTrim s then [.valueFixed]
           else []⟩)
    ∧ Optimizer.optimizeValueS "$1,234.50" = ⟨"1234.50", [.valueFixed]⟩
    ∧ Optimizer.optimizeValueS "1.234,56" = ⟨"1.234,56", []⟩
    ∧ Optimizer.optimizeValueS "1,2345" = ⟨"12345", [.valueFixed]⟩
    ∧ Optimizer.optimizeValueS "1,23" = ⟨"1.23", [.valueFixed]⟩
    ∧ Optimizer.optimizeValueS "12,345" = ⟨"12345", [.valueFixed]⟩ := by
  refine ⟨remGroupSep_eq_atLeast, ?_, by decide, by decide, by decide,
    by decide, by decide⟩
  intro s
  by_cases hb : jsTrim s = ""
  · simp [Optimizer.optimizeValueS, specCleanValueAtLeast, hb]
  · simp only [Optimizer.optimizeValueS, specCleanValueAtLeast,
      Optimizer.cleanValueStages, remGroupSep_eq_atLeast, hb,
      ne_eq, if_false]

/-- C10 counterexample: the claim's "otherwise" branch prefixes the
configured default country calling code onto whatever digits remain, but
when a leading `+` was present with fewer than ten digits the code renders
`+<digits>` with no prefix: on `"+123"` with default code `"1"` the code
yields `"+123"` while the claim's reading yields `"+1123"`. -/
theorem normalizePhone_short_plus_keeps_digits :
    Hasher.normalizePhone "+123" "1" = "+123"
    ∧ specPhone "+123" "1" = "+1123"
    ∧ ("+123" : String) ≠ "+1123" := by
  refine ⟨?_, ?_, ?_⟩ <;> decide

/-- C10 as amended: non-digits are stripped noting a leading `+`; `+` with
ten or more digits renders as-is; exactly ten digits get the default code;
eleven digits beginning with the literal digit `1` (not the configured
code's first digit) render as-is; otherwise the digits render with a `+`,
prefixed by the default code only when no `+` was present. The pipeline's
`hashField` always invokes phone canonicalization with the default code
`"1"` — no configured country-code setting exists. -/
theorem normalizePhone_characterization :
    (∀ phone dcc : String,
      Hasher.normalizePhone phone dcc = specPhoneAmended phone dcc)
    ∧ (∀ digest : String → List Nat, ∀ s : String,
        Hasher.hashFieldS digest s .phone =
          if jsTrim s = "" then ""
          else if Hasher.normalizePhone s "1" = "" then ""
          else Hasher.sha256Hash digest (Hasher.normalizePhone s "1"))
    ∧ Hasher.normalizePhone "(555) 123-4567" "1" = "+15551234567"
    ∧ Hasher.normalizePhone "+4912345678901" "7" = "+4912345678901"
    ∧ Hasher.normalizePhone "12345678901" "44" = "+12345678901"
    ∧ Hasher.normalizePhone "+12 345" "9" = "+12345" := by
  refine ⟨?_, ?_, by decide, by decide, by decide, by decide⟩
  · intro phone dcc
    rfl
  · intro digest s
    rfl

/-- C7: email canonicalization lowercases and trims; on the dots-ignoring
free-mail domains (`gmail.com`, `googlemail.com`) it strips local-part dots
and drops from the first `+`, on other domains it only drops from the first
`+`; `"J.Doe+promo@gmail.com"` canonicalizes to `"jdoe@gmail.com"`; and
since `hashField` digests the canonical form, any two non-blank inputs with
the same canonical form — in particular dot/plus variants of one gmail
address — hash to the identical digest, for every digest function. -/
theorem normalizeEmail_gmail_canonicalization :
    Hasher.normalizeEmail "J.Doe+promo@gmail.com" = "jdoe@gmail.com"
    ∧ Hasher.normalizeEmail "jd.o.e+x@gmail.com" = "jdoe@gmail.com"
    ∧ Hasher.normalizeEmail "J.Doe+p@googlemail.com" = "jdoe@googlemail.com"
    ∧ Hasher.normalizeEmail "A.B+tag@Example.COM " = "a.b@example.com"
    ∧ (∀ digest : String → List Nat, ∀ e1 e2 : String,
        jsTrim e1 ≠ "" → jsTrim e2 ≠ "" →
        Hasher.normalizeEmail e1 = Hasher.normalizeEmail e2 →
        Hasher.hashFieldS digest e1 .email =
          Hasher.hashFieldS digest e2 .email)
    ∧ (∀ digest : String → List Nat,
        Hasher.hashFieldS digest "J.Doe+promo@gmail.com" .email =
          Hasher.hashFieldS digest "j.doe+other@gmail.com" .email) := by
  have hcong : ∀ digest : String → List Nat, ∀ e1 e2 : String,
      jsTrim e1 ≠ "" → jsTrim e2 ≠ "" →
      Hasher.normalizeEmail e1 = Hasher.normalizeEmail e2 →
      Hasher.hashFieldS digest e1 .email =
        Hasher.hashFieldS digest e2 .email := by
    intro digest e1 e2 h1 h2 heq
    simp only [Hasher.hashFieldS]
    rw [if_neg h1, if_neg h2, heq]
  refine ⟨by decide, by decide, by decide, by decide, hcong, ?_⟩
  intro digest
  exact hcong digest _ _ (by decide) (by decide) (by decide)

/-- Witness for C7's congruence conjunct at concrete inputs: two non-blank
dot/plus variants of one gmail address have the same canonical form, and
their hashes under the zero digest agree. -/
theorem normalizeEmail_gmail_canonicalization_witness :
    jsTrim "J.Doe+promo@gmail.com" ≠ ""
    ∧ jsTrim "j.doe+other@gmail.com" ≠ ""
    ∧ Hasher.normalizeEmail "J.Doe+promo@gmail.com" =
        Hasher.normalizeEmail "j.doe+other@gmail.com"
    ∧ Hasher.hashFieldS digestZero "J.Doe+promo@gmail.com" .email =
        Hasher.hashFieldS digestZero "j.doe+other@gmail.com" .email :=
  ⟨by decide, by decide, by decide,
    normalizeEmail_gmail_canonicalization.2.2.2.2.1 digestZero
      "J.Doe+promo@gmail.com" "j.doe+other@gmail.com"
      (by decide) (by decide) (by decide)⟩

/-- C3 counterexample: the claim says the duplicate check is skipped when
the composite key would be entirely empty. In EnhancedForLeads mode the
entirely empty key interpolates to `"--"`, and the code only skips the
literal key `"-"`: two rows with empty email, phone and timestamp fields
still produce a duplicate warning on the second row. -/
theorem duplicate_check_empty_ec4l_key_not_skipped :
    Validator.dupKey .ec4l (rowEmptyKey 1) = "--"
    ∧ (rowEmptyKey 1).email = .str "" ∧ (rowEmptyKey 1).phone = .str ""
    ∧ (rowEmptyKey 1).conversionTime = .str ""
    ∧ (Validator.validateAll jsDateLib nowFix [rowEmptyKey 1, rowEmptyKey 2]
        .ec4l { conversionName := "Lead" }).map
        (fun r => (r.issues.filter
          (fun i => i.message = .possibleDuplicate)).length) = .ok 1
    ∧ (1 : Nat) ≠ 0 := by
  refine ⟨?_, ?_, ?_, ?_, ?_, ?_⟩ <;> decide

/-- C3 as amended: `validateAll` computes the composite key
(identifier, timestamp) for Standard mode and (email, phone, timestamp) for
every other mode — SocialPlatform included; it skips the duplicate check
only when the key string equals the Standard-mode empty key `"-"` (an
entirely empty EnhancedForLeads key interpolates to `"--"` and is still
checked); a key's first occurrence is never flagged and each later repeat
of a key other than `"-"` receives exactly one duplicate Warning: for every
run that completes, position `i` carries exactly one duplicate warning when
its key occurs among the earlier keys and differs from `"-"`, and none
otherwise. Three Standard-mode rows sharing identifier `"abc"` and an
identical timestamp produce exactly 2 duplicate warnings. -/
theorem validateAll_duplicate_characterization :
    (∀ (lib : DateLib) (now : PDate) (mode : Mode) (settings : Settings)
       (rows : List Row) (res : Validator.VResult),
      Validator.validateAll lib now rows mode settings = .ok res →
      ∀ (i : Nat) (h : i < rows.length),
        ((res.issues.filter
            (fun x => x.message = .possibleDuplicate)).filter
          (fun x => x.rowIndex = i + 1)).length =
        if Validator.dupKey mode (rows.get ⟨i, h⟩) ∈
              (rows.take i).map (Validator.dupKey mode) ∧
            Validator.dupKey mode (rows.get ⟨i, h⟩) ≠ "-"
        then 1 else 0)
    ∧ ((Validator.validateAll jsDateLib nowFix [rowAbc 1, rowAbc 2, rowAbc 3]
        .standard settingsLead).map
        (fun r => (r.issues.filter
          (fun i => i.message = .possibleDuplicate)).length) = .ok 2) := by
  constructor
  · intro lib now mode settings rows res h i hi
    simp only [Validator.validateAll] at h
    obtain ⟨issues, hgo, h⟩ := exceptBind_ok h
    replace h := exceptPure_ok h
    subst h
    simp only
    rw [validateAllGo_dup_filter rows 0 [] issues hgo]
    have := @dupIssuesSpec_count mode rows 0 [] i hi
    rw [Nat.zero_add] at this
    rw [this]
    simp
  · decide

/-- Witness for the duplicate characterization: the three-duplicates
scenario at position 2 (the third row), whose key repeats, carries exactly
one duplicate warning. -/
theorem validateAll_duplicate_characterization_witness :
    ((resAbc.issues.filter
        (fun x => x.message = .possibleDuplicate)).filter
      (fun x => x.rowIndex = 2 + 1)).length =
    if Validator.dupKey .standard
          (([rowAbc 1, rowAbc 2, rowAbc 3] : List Row).get ⟨2, by decide⟩) ∈
          (([rowAbc 1, rowAbc 2, rowAbc 3] : List Row).take 2).map
            (Validator.dupKey .standard) ∧
        Validator.dupKey .standard
          (([rowAbc 1, rowAbc 2, rowAbc 3] : List Row).get ⟨2, by decide⟩) ≠
          "-"
    then 1 else 0 :=
  validateAll_duplicate_characterization.1 jsDateLib nowFix .standard
    settingsLead [rowAbc 1, rowAbc 2, rowAbc 3] resAbc (by decide) 2
    (by decide)

end OCT
